import Mathlib

/-
Verification of the resumable, idempotent T-REX deployment orchestrator
(`deployAll` script: `deployIfNeeded`, `isContractDeployed`, `updateProgress`,
`saveDeploymentState`, `loadExistingDeployment` and the `main` run loop).

Shallow embedding notes:
* The deployment ledger (`deploymentState` JSON object) becomes the
  `DeploymentState` structure.  JS objects mapping names to addresses become
  association lists with JS semantics (first occurrence wins, `delete`
  removes the key, assignment replaces in place or appends).
* JS fractional step numbers are scaled by ten so that they fit `Nat`
  order-isomorphically: source step `1` is `10`, `1.1` is `11`, ..., `8` is
  `80`.  Only the ordering of step numbers matters to any claim.
* External collaborators (ethers provider, Fireblocks signer, artifact
  loader, filesystem clock) are an `Env` record of oracle functions:
  `getCode`/`isAddress` for the chain queries, `deploy` for constructor
  transactions (constructor arguments are consumed by the external client
  and are not observed by the orchestrator logic, so `deploy` is indexed by
  the unit name), `invoke` for the four configuration transactions,
  `resolve` for artifact loading, `stored` for the `deployment-state.json`
  read (`none` models both a missing and an unreadable file).  Timestamps
  taken during one run are the per-run constants `startTime` (state-object
  creation), `tickTime` (`lastUpdated`) and `doneTime` (`completedAt`).
* Every observable side effect is recorded in a trace of `Event`s:
  `flush` (a `saveDeploymentState` write, carrying the saved state),
  `deployCall` (a constructor transaction submission), `invokeCall`
  (a configuration transaction submission) and `backup` (the timestamped
  `deployment-complete-<ts>.json` archival write).
* Fallible operations return `Except`; a fatal error aborts the run with
  the trace produced so far, matching the script's top level `process.exit(1)`.
-/

namespace TREXDeploy

/-- JS-object lookup on an association list: first binding of the key. -/
def jsGet : List (String × String) → String → Option String
  | [], _ => none
  | (k, v) :: rest, key => if k = key then some v else jsGet rest key

/-- JS truthiness of an optional string: `undefined`/`null`/`""` are falsy. -/
def truthy : Option String → Bool
  | none => false
  | some s => !(s == "")

/-- JS-object assignment `obj[key] = val`: replace the binding in place, or
append if the key is absent. -/
def setUnit (key val : String) : List (String × String) → List (String × String)
  | [] => [(key, val)]
  | (k, v) :: rest => if k = key then (k, val) :: rest else (k, v) :: setUnit key val rest

/-- JS `delete obj[key]`: drop the binding of the key. -/
def removeUnit (key : String) : List (String × String) → List (String × String)
  | [] => []
  | (k, v) :: rest =>
      if k = key then removeUnit key rest else (k, v) :: removeUnit key rest

/-- Case-sensitive substring test, the semantics of JS
`String.prototype.includes` used by the error-message classification. -/
def occursIn (needle : List Char) : List Char → Bool
  | [] => needle.isEmpty
  | c :: rest => needle.isPrefixOf (c :: rest) || occursIn needle rest

/-- `error.message.includes(sub)`. -/
def strContains (hay sub : String) : Bool :=
  occursIn sub.toList hay.toList

/-- The `progress` object of the ledger.  In the script the four
configuration flags are stored as extra fields on this object
(`deploymentState.progress.versionConfigured` and friends); a fresh
progress object leaves them `undefined`, i.e. `false`. -/
structure Progress where
  step : Nat
  description : String
  lastUpdated : Option Nat
  versionConfigured : Bool
  identityFactoryConfigured : Bool
  trexFactoryConfigured : Bool
  iaFactoryConfigured : Bool
deriving DecidableEq

/-- The deployment ledger (`deploymentState`).  `timestamp` is the field the
spec calls `createdAt`; `network` is `ChainId.HOODI`; `contracts` maps unit
names to deployed addresses. -/
structure DeploymentState where
  timestamp : Nat
  network : Nat
  deployer : Option String
  contracts : List (String × String)
  progress : Progress
  completed : Bool
  completedAt : Option Nat
deriving DecidableEq

/-- Observable side effects of a run. -/
inductive Event where
  | flush (s : DeploymentState)
  | deployCall (name : String)
  | invokeCall (action : String)
  | backup (s : DeploymentState)
deriving DecidableEq

/-- External collaborators and the per-run clock. -/
structure Env where
  stored : Option DeploymentState
  isAddress : String → Bool
  getCode : String → Except Unit String
  resolve : String → Except String Unit
  deploy : String → Except String String
  invoke : String → Except String Unit
  getBalance : Except String Unit
  account0 : String
  startTime : Nat
  tickTime : Nat
  doneTime : Nat

/-- `ChainId.HOODI`. -/
def chainIdHOODI : Nat := 560048

/-- `isContractDeployed(provider, address)`: `false` on a falsy or
syntactically invalid address, `false` when `getCode` throws, otherwise
true exactly when the code is neither `"0x"` nor `"0x0"`.  The JS function
never throws (it catches the query error), so the embedding is a total
function into `Bool`. -/
def isContractDeployed (env : Env) (address : Option String) : Bool :=
  match address with
  | none => false
  | some a =>
      if a == "" then false
      else if !env.isAddress a then false
      else
        match env.getCode a with
        | .error _ => false
        | .ok code => !(code == "0x") && !(code == "0x0")

/-- `updateProgress(step, description)` without a contract argument:
mutates `progress.step`, `progress.description`, `progress.lastUpdated`
(the flag fields on the same object survive). -/
def updProgress (env : Env) (sp : Nat) (d : String) (st : DeploymentState) : DeploymentState :=
  { st with
    progress := { st.progress with
                  step := sp
                  description := d
                  lastUpdated := some env.tickTime } }

/-- `updateProgress(step, description, contractName, contractAddress)`:
additionally records the unit address when both extra arguments are truthy. -/
def updProgressC (env : Env) (sp : Nat) (d name addr : String)
    (st : DeploymentState) : DeploymentState :=
  let st1 := updProgress env sp d st
  if !(name == "") && !(addr == "") then
    { st1 with contracts := setUnit name addr st1.contracts }
  else st1

/-- The tail of `deployIfNeeded`: submit the constructor transaction, and on
confirmation record the address and flush (`saveDeploymentState`). -/
def doDeploy (env : Env) (name : String) (st : DeploymentState) :
    List Event × Except String (String × DeploymentState) :=
  match env.deploy name with
  | .error e => ([.deployCall name], .error e)
  | .ok addr =>
      let st' := { st with contracts := setUnit name addr st.contracts }
      ([.deployCall name, .flush st'], .ok (addr, st'))

/-- `deployIfNeeded(contractName, factory, args)`.  Without force mode and
with a truthy cached address: reconcile, and on `Live` return the attached
handle at the cached address without deploying and without a ledger write;
on `Absent` delete the cached entry (in memory) and deploy.  In force mode a
truthy cached entry is deleted and the unit always deployed. -/
def deployIfNeeded (force : Bool) (env : Env) (name : String) (st : DeploymentState) :
    List Event × Except String (String × DeploymentState) :=
  match force, jsGet st.contracts name with
  | false, some addr =>
      if addr == "" then doDeploy env name st
      else if isContractDeployed env (some addr) then ([], .ok (addr, st))
      else doDeploy env name { st with contracts := removeUnit name st.contracts }
  | true, some addr =>
      if addr == "" then doDeploy env name st
      else doDeploy env name { st with contracts := removeUnit name st.contracts }
  | _, none => doDeploy env name st

/-- The four flag-guarded configuration actions. -/
inductive Flag where
  | version
  | identityFactory
  | trexFactory
  | iaFactory
deriving DecidableEq

def flagGet (st : DeploymentState) : Flag → Bool
  | .version => st.progress.versionConfigured
  | .identityFactory => st.progress.identityFactoryConfigured
  | .trexFactory => st.progress.trexFactoryConfigured
  | .iaFactory => st.progress.iaFactoryConfigured

def flagSet (f : Flag) (st : DeploymentState) : DeploymentState :=
  match f with
  | .version => { st with progress := { st.progress with versionConfigured := true } }
  | .identityFactory =>
      { st with progress := { st.progress with identityFactoryConfigured := true } }
  | .trexFactory => { st with progress := { st.progress with trexFactoryConfigured := true } }
  | .iaFactory => { st with progress := { st.progress with iaFactoryConfigured := true } }

/-- `needsVersionConfig`: re-run the version configuration when the
TREXImplementationAuthority entry is falsy or the flag is unset. -/
def needsVersionConfig (st : DeploymentState) : Bool :=
  !(truthy (jsGet st.contracts "TREXImplementationAuthority")) ||
    !st.progress.versionConfigured

/-- One step of the straight-line plan in `main`:
* `setProgress` — a bare `updateProgress(step, desc)` call (flushes);
* `deployC` — `getContractArtifact`/`getOnchainIDContractFactory` for the
  artifact, then `deployIfNeeded` for the unit, then
  `updateProgress(step, desc, unit, address)` (flushes);
* `versionCfg` — the step-3 `addAndUseTREXVersion` block (no error
  recovery, no flush of its own);
* `action` — a try/catch configuration action with its per-action list of
  case-sensitive "already done" message substrings (no flush of its own);
* `finish` — `updateProgress(8, ...)`, then `completed`/`completedAt`,
  `saveDeploymentState()` and the timestamped backup write. -/
inductive Step where
  | setProgress (sp : Nat) (desc : String)
  | deployC (artifact unit : String) (sp : Nat) (desc : String)
  | versionCfg
  | action (f : Flag) (act : String) (subs : List String)
  | finish
deriving DecidableEq

def execStep (force : Bool) (env : Env) (st : DeploymentState) :
    Step → List Event × Except String DeploymentState
  | .setProgress sp d =>
      let st' := updProgress env sp d st
      ([.flush st'], .ok st')
  | .deployC art u sp d =>
      match env.resolve art with
      | .error e => ([], .error e)
      | .ok _ =>
          match deployIfNeeded force env u st with
          | (ev, .error e) => (ev, .error e)
          | (ev, .ok (addr, st1)) =>
              let st2 := updProgressC env sp d u addr st1
              (ev ++ [.flush st2], .ok st2)
  | .versionCfg =>
      if needsVersionConfig st then
        match env.invoke "addAndUseTREXVersion" with
        | .error e => ([.invokeCall "addAndUseTREXVersion"], .error e)
        | .ok _ => ([.invokeCall "addAndUseTREXVersion"], .ok (flagSet .version st))
      else ([], .ok st)
  | .action f act subs =>
      if flagGet st f then ([], .ok st)
      else
        match env.invoke act with
        | .ok _ => ([.invokeCall act], .ok (flagSet f st))
        | .error e =>
            if subs.any (fun sub => strContains e sub) then
              ([.invokeCall act], .ok (flagSet f st))
            else ([.invokeCall act], .error e)
  | .finish =>
      let st1 := updProgress env 80 "Deployment completed successfully!" st
      let st2 := { st1 with completed := true, completedAt := some env.doneTime }
      ([.flush st1, .flush st2, .backup st2], .ok st2)

/-- The plan body, in the fixed declared order of `main` (steps 1 through
7.1, step numbers scaled by ten). -/
def planBody : List Step := [
  .setProgress 10 "Starting implementation contracts deployment",
  .deployC "Token" "TokenImplementation" 11 "Token implementation deployment completed",
  .deployC "ClaimTopicsRegistry" "ClaimTopicsRegistryImplementation" 12
    "ClaimTopicsRegistry implementation deployment completed",
  .deployC "TrustedIssuersRegistry" "TrustedIssuersRegistryImplementation" 13
    "TrustedIssuersRegistry implementation deployment completed",
  .deployC "IdentityRegistryStorage" "IdentityRegistryStorageImplementation" 14
    "IdentityRegistryStorage implementation deployment completed",
  .deployC "IdentityRegistry" "IdentityRegistryImplementation" 15
    "IdentityRegistry implementation deployment completed",
  .deployC "ModularCompliance" "ModularComplianceImplementation" 16
    "All implementation contracts deployment completed",
  .setProgress 20 "Starting OnchainID infrastructure deployment",
  .deployC "Identity" "IdentityImplementation" 21
    "Identity implementation deployment completed",
  .deployC "ImplementationAuthority" "IdentityImplementationAuthority" 22
    "IdentityImplementationAuthority deployment completed",
  .deployC "Factory" "IdentityFactory" 23
    "OnchainID infrastructure deployment completed",
  .setProgress 30 "Deploying TREXImplementationAuthority",
  .deployC "TREXImplementationAuthority" "TREXImplementationAuthority" 31
    "TREXImplementationAuthority deployment completed",
  .versionCfg,
  .setProgress 32 "T-REX version configuration completed",
  .setProgress 40 "Deploying TREXFactory",
  .deployC "TREXFactory" "TREXFactory" 41 "TREXFactory deployment completed",
  .setProgress 50 "Configuring IdentityFactory",
  .action .identityFactory "addTokenFactory" ["already a TokenFactory"],
  .setProgress 51 "IdentityFactory configuration completed",
  .setProgress 60 "Deploying IAFactory",
  .deployC "IAFactory" "IAFactory" 61 "IAFactory deployment completed",
  .setProgress 70 "Final configuration",
  .action .trexFactory "setTREXFactory" ["already set", "same"],
  .action .iaFactory "setIAFactory" ["already set", "same"],
  .setProgress 71 "All configurations completed"]

/-- The whole plan: the body followed by the completion block. -/
def thePlan : List Step := planBody ++ [.finish]

/-- Run a list of plan steps sequentially, accumulating the event trace and
aborting on the first fatal error (the ledger then stays at its last
flushed checkpoint). -/
def runSteps (force : Bool) (env : Env) :
    List Step → DeploymentState → List Event × Except String DeploymentState
  | [], st => ([], .ok st)
  | s :: rest, st =>
      match execStep force env st s with
      | (ev, .error e) => (ev, .error e)
      | (ev, .ok st') =>
          match runSteps force env rest st' with
          | (ev2, r) => (ev ++ ev2, r)

/-- The freshly created in-memory `deploymentState` object of a run. -/
def initialState (env : Env) : DeploymentState :=
  { timestamp := env.startTime
    network := chainIdHOODI
    deployer := none
    contracts := []
    progress := { step := 0
                  description := "Starting deployment..."
                  lastUpdated := none
                  versionConfigured := false
                  identityFactoryConfigured := false
                  trexFactoryConfigured := false
                  iaFactoryConfigured := false }
    completed := false
    completedAt := none }

/-- Everything after the load/merge decision: the deployer initialization
(with its step-0 flush when the deployer is not yet set), the balance
query, then the plan. -/
def runBody (force : Bool) (env : Env) (st : DeploymentState) :
    List Event × Except String DeploymentState :=
  let st1 := if truthy st.deployer then st
             else updProgress env 0 "Initialized deployer" { st with deployer := some env.account0 }
  let ev0 : List Event := if truthy st.deployer then [] else [.flush st1]
  let rest :=
    match env.getBalance with
    | .error e => ([], (.error e : Except String DeploymentState))
    | .ok _ => runSteps force env thePlan st1
  (ev0 ++ rest.1, rest.2)

def mapOutcome (p : List Event × Except String DeploymentState) :
    List Event × Except String (Option DeploymentState) :=
  (p.1, match p.2 with | .error e => .error e | .ok st => .ok (some st))

/-- The in-memory state after the force-mode reset: `contracts` and the
whole `progress` object (step, description and all guard flags) are cleared
together; the existing ledger is not even read. -/
def forceInitState (env : Env) : DeploymentState :=
  { initialState env with
    contracts := []
    progress := { step := 0
                  description := "Force redeployment starting..."
                  lastUpdated := none
                  versionConfigured := false
                  identityFactoryConfigured := false
                  trexFactoryConfigured := false
                  iaFactoryConfigured := false } }

/-- The in-memory state after loading a non-completed ledger: `contracts`,
`progress` (with its flags) and `deployer` are merged from the stored
record — the creation `timestamp` is not — and then every cached address is
reconciled, entries whose address is not live being removed. -/
def mergedState (env : Env) (ex : DeploymentState) : DeploymentState :=
  { initialState env with
    contracts := ex.contracts.filter (fun p => isContractDeployed env (some p.2))
    progress := ex.progress
    deployer := ex.deployer }

/-- The whole `main`.  Outcome `.ok none` is the "deployment already
completed" early exit, `.ok (some st)` a completed run with final in-memory
state `st`, `.error e` the fatal abort.  With force mode the existing
ledger is never read and `contracts`/`progress` are reset together; without
it an existing non-completed ledger is merged (`contracts`, `progress`,
`deployer` — the creation `timestamp` is not merged) and every cached unit
address reconciled, dead entries removed. -/
def runMain (force : Bool) (env : Env) :
    List Event × Except String (Option DeploymentState) :=
  if force then
    mapOutcome (runBody true env (forceInitState env))
  else
    match env.stored with
    | none => mapOutcome (runBody false env (initialState env))
    | some ex =>
        if ex.completed then ([], .ok none)
        else mapOutcome (runBody false env (mergedState env ex))

/-- The states written to `deployment-state.json`, in order. -/
def flushes (tr : List Event) : List DeploymentState :=
  tr.filterMap (fun e => match e with | .flush s => some s | _ => none)

/-- The `progress.step` values of the flushed states, in order. -/
def flushSteps (tr : List Event) : List Nat :=
  (flushes tr).map (fun s => s.progress.step)

def isBackup : Event → Bool
  | .backup _ => true
  | _ => false

def isOkSome : Except String (Option DeploymentState) → Bool
  | .ok (some _) => true
  | _ => false

/-- The flag a step is guarded by, when any. -/
def stepFlag : Step → Option Flag
  | .versionCfg => some .version
  | .action f _ _ => some f
  | _ => none

/-- The chain-client submission a step must perform when it executes in
force mode. -/
def mustEvent : Step → Option Event
  | .deployC _ u _ _ => some (.deployCall u)
  | .versionCfg => some (.invokeCall "addAndUseTREXVersion")
  | .action _ act _ => some (.invokeCall act)
  | _ => none

/-- The three configuration actions equipped with "already done" message
substrings (the step-3 version configuration has none). -/
def recoverableActions : List (Flag × String × List String) :=
  [(.identityFactory, "addTokenFactory", ["already a TokenFactory"]),
   (.trexFactory, "setTREXFactory", ["already set", "same"]),
   (.iaFactory, "setIAFactory", ["already set", "same"])]

/-- Monotone step numbers along a plan, starting from a current value. -/
def planOK : Nat → List Step → Bool
  | _, [] => true
  | c, .setProgress sp _ :: r => (decide (c ≤ sp)) && planOK sp r
  | c, .deployC _ _ sp _ :: r => (decide (c ≤ sp)) && planOK sp r
  | c, .versionCfg :: r => planOK c r
  | c, .action _ _ _ :: r => planOK c r
  | c, .finish :: r => (decide (c ≤ 80)) && planOK 80 r

/-- The plan minus its first step (used to reason about resumed runs, whose
first flush is the step-1 progress update). -/
def planTail : List Step := planBody.tail ++ [.finish]

/-! Concrete environments used to evaluate the model at specific inputs.
`envW` is a benign environment: no stored ledger, every address valid and
holding code, every transaction succeeding. -/

def envW : Env :=
  { stored := none
    isAddress := fun _ => true
    getCode := fun _ => .ok "0x6080"
    resolve := fun _ => .ok ()
    deploy := fun n => .ok ("0x" ++ n)
    invoke := fun _ => .ok ()
    getBalance := .ok ()
    account0 := "0xDEPLOYER"
    startTime := 1000
    tickTime := 1001
    doneTime := 1002 }

/-- A stored ledger caching a live address for `TokenImplementation`. -/
def exW1 : DeploymentState :=
  { timestamp := 111
    network := chainIdHOODI
    deployer := some "0xD"
    contracts := [("TokenImplementation", "0xCAFE")]
    progress := { step := 10
                  description := "resumed"
                  lastUpdated := some 7
                  versionConfigured := false
                  identityFactoryConfigured := false
                  trexFactoryConfigured := false
                  iaFactoryConfigured := false }
    completed := false
    completedAt := none }

def envW1 : Env := { envW with stored := some exW1 }

/-- An environment whose chain client reports empty code everywhere. -/
def cexEnv2 : Env := { envW with getCode := fun _ => .ok "0x" }

/-- A state caching a (now dead) address for `TokenImplementation`. -/
def cexSt2 : DeploymentState :=
  { initialState cexEnv2 with contracts := [("TokenImplementation", "0xDEAD")] }

/-- A stored ledger whose last flushed progress marker is source step 5
(scaled: 50), from a run that was interrupted at step 5. -/
def cexStored3 : DeploymentState :=
  { timestamp := 111
    network := chainIdHOODI
    deployer := some "0xD"
    contracts := []
    progress := { step := 50
                  description := "Configuring IdentityFactory"
                  lastUpdated := some 7
                  versionConfigured := true
                  identityFactoryConfigured := false
                  trexFactoryConfigured := false
                  iaFactoryConfigured := false }
    completed := false
    completedAt := none }

def cexEnv3 : Env := { envW with stored := some cexStored3, startTime := 222 }

/-- Environment where `setTREXFactory` fails with a recognized "already
set" message and `setIAFactory` then fails with an unrecognized one. -/
def cexEnv4 : Env :=
  { envW with invoke := fun a =>
      if a == "setTREXFactory" then .error "TREXFactory already set"
      else if a == "setIAFactory" then .error "boom"
      else .ok () }

/-- Environment where `addTokenFactory` fails with the recognized
"already a TokenFactory" message. -/
def envW4a : Env :=
  { envW with invoke := fun a =>
      if a == "addTokenFactory" then .error "factory is already a TokenFactory here"
      else .ok () }

/-- Environment where `addTokenFactory` fails with an unrecognized message. -/
def envW4b : Env :=
  { envW with invoke := fun a =>
      if a == "addTokenFactory" then .error "execution reverted" else .ok () }

/-- Environment whose code queries always throw. -/
def envE5 : Env := { envW with getCode := fun _ => .error () }

/-- A stored ledger created at time 111 (its creation timestamp). -/
def cexStored8 : DeploymentState :=
  { timestamp := 111
    network := chainIdHOODI
    deployer := some "0xD"
    contracts := []
    progress := { step := 10
                  description := "resumed"
                  lastUpdated := some 7
                  versionConfigured := false
                  identityFactoryConfigured := false
                  trexFactoryConfigured := false
                  iaFactoryConfigured := false }
    completed := false
    completedAt := none }

/-- A later run (start time 222) resuming from that ledger. -/
def cexEnv8 : Env := { envW with stored := some cexStored8, startTime := 222 }

/-- Environment where `addAndUseTREXVersion` fails with a message that even
contains the word "already" — configuration step 3 has no recovery, so the
error must still propagate. -/
def env9 : Env :=
  { envW with invoke := fun a =>
      if a == "addAndUseTREXVersion" then .error "version already in use"
      else .ok () }

end TREXDeploy

namespace TREXDeploy

/-! ### Association-list lemmas (JS object semantics) -/

theorem jsGet_setUnit_self (key val : String) :
    ∀ m : List (String × String), jsGet (setUnit key val m) key = some val
  | [] => by simp [setUnit, jsGet]
  | (k, v) :: rest => by
      by_cases h : k = key
      · simp [setUnit, h, jsGet]
      · simp [setUnit, h, jsGet, jsGet_setUnit_self key val rest]

theorem jsGet_setUnit_ne (key val q : String) (hne : key ≠ q) :
    ∀ m : List (String × String), jsGet (setUnit key val m) q = jsGet m q
  | [] => by simp [setUnit, jsGet, hne]
  | (k, v) :: rest => by
      by_cases h : k = key
      · subst h
        simp [setUnit, jsGet, hne]
      · by_cases h2 : k = q
        · simp [setUnit, h, jsGet, h2, Ne.symm hne]
        · simp [setUnit, h, jsGet, h2, jsGet_setUnit_ne key val q hne rest]

theorem jsGet_removeUnit_ne (key q : String) (hne : key ≠ q) :
    ∀ m : List (String × String), jsGet (removeUnit key m) q = jsGet m q
  | [] => by simp [removeUnit, jsGet]
  | (k, v) :: rest => by
      by_cases h : k = key
      · subst h
        simp [removeUnit, jsGet, hne, jsGet_removeUnit_ne k q hne rest]
      · by_cases h2 : k = q
        · simp [removeUnit, jsGet, h, h2, Ne.symm hne]
        · simp [removeUnit, jsGet, h, h2, jsGet_removeUnit_ne key q hne rest]

theorem jsGet_filter_of (p : String × String → Bool) (key a : String)
    (hp : p (key, a) = true) :
    ∀ m : List (String × String), jsGet m key = some a →
      jsGet (m.filter p) key = some a
  | [] => by simp [jsGet]
  | (k, v) :: rest => by
      intro h
      by_cases hk : k = key
      · subst hk
        simp [jsGet] at h
        subst h
        simp [List.filter_cons, hp, jsGet]
      · simp [jsGet, hk] at h
        have IH := jsGet_filter_of p key a hp rest h
        cases hpv : p (k, v)
        · simp [List.filter_cons, hpv, IH]
        · simp [List.filter_cons, hpv, jsGet, hk, IH]

end TREXDeploy

namespace TREXDeploy

/-! ### Structural lemmas about the run -/

theorem runSteps_cons (force : Bool) (env : Env) (s : Step) (rest : List Step)
    (st : DeploymentState) :
    runSteps force env (s :: rest) st =
      match execStep force env st s with
      | (ev, .error e) => (ev, .error e)
      | (ev, .ok st') =>
          match runSteps force env rest st' with
          | (ev2, r) => (ev ++ ev2, r) := rfl

theorem runSteps_append (force : Bool) (env : Env) :
    ∀ (p1 p2 : List Step) (st : DeploymentState),
      runSteps force env (p1 ++ p2) st =
        match runSteps force env p1 st with
        | (ev, .error e) => (ev, .error e)
        | (ev, .ok st') =>
            match runSteps force env p2 st' with
            | (ev2, r) => (ev ++ ev2, r)
  | [], p2, st => by simp [runSteps]
  | s :: p1, p2, st => by
      rw [List.cons_append, runSteps_cons, runSteps_cons]
      cases hE : execStep force env st s with
      | mk ev r =>
        cases r with
        | error e => rfl
        | ok st' =>
            simp only
            rw [runSteps_append force env p1 p2 st']
            cases h1 : runSteps force env p1 st' with
        | mk ev1 r1 =>
            cases r1 with
            | error e => rfl
            | ok st1 =>
                simp only
                cases h2 : runSteps force env p2 st1 with
                | mk ev2 r2 => simp [List.append_assoc]

theorem flushes_append (a b : List Event) :
    flushes (a ++ b) = flushes a ++ flushes b := by
  simp [flushes]

theorem flushSteps_append (a b : List Event) :
    flushSteps (a ++ b) = flushSteps a ++ flushSteps b := by
  simp [flushSteps, flushes_append]

/-! ### Shape of `deployIfNeeded` outcomes -/

theorem doDeploy_shape (env : Env) (name : String) (st : DeploymentState) :
    (∃ e, doDeploy env name st = ([.deployCall name], .error e))
  ∨ (∃ a2, doDeploy env name st =
       ([.deployCall name, .flush { st with contracts := setUnit name a2 st.contracts }],
        .ok (a2, { st with contracts := setUnit name a2 st.contracts }))) := by
  unfold doDeploy
  cases hd : env.deploy name with
  | error e => exact Or.inl ⟨e, rfl⟩
  | ok a2 => exact Or.inr ⟨a2, rfl⟩

/-- Every call of `deployIfNeeded` either skips (live cached address, no
events, state unchanged), aborts with the deploy call emitted, or deploys:
the deploy call followed by a flush that already records the new address;
`base` is the contracts map the deployment starts from (with the cached
entry removed when one was present and truthy). -/
theorem dif_shape (force : Bool) (env : Env) (name : String) (st : DeploymentState) :
    (∃ a, force = false ∧ jsGet st.contracts name = some a ∧
        isContractDeployed env (some a) = true ∧
        deployIfNeeded force env name st = ([], .ok (a, st)))
  ∨ (∃ e, deployIfNeeded force env name st = ([.deployCall name], .error e))
  ∨ (∃ a2 base, (base = st.contracts ∨ base = removeUnit name st.contracts) ∧
        deployIfNeeded force env name st =
          ([.deployCall name, .flush { st with contracts := setUnit name a2 base }],
           .ok (a2, { st with contracts := setUnit name a2 base }))) := by
  have hdo : ∀ base, (base = st.contracts ∨ base = removeUnit name st.contracts) →
      deployIfNeeded force env name st = doDeploy env name { st with contracts := base } →
      (∃ e, deployIfNeeded force env name st = ([.deployCall name], .error e))
    ∨ (∃ a2 base2, (base2 = st.contracts ∨ base2 = removeUnit name st.contracts) ∧
        deployIfNeeded force env name st =
          ([.deployCall name, .flush { st with contracts := setUnit name a2 base2 }],
           .ok (a2, { st with contracts := setUnit name a2 base2 }))) := by
    intro base hbase hred
    rcases doDeploy_shape env name { st with contracts := base } with ⟨e, he⟩ | ⟨a2, ha⟩
    · exact Or.inl ⟨e, hred.trans he⟩
    · exact Or.inr ⟨a2, base, hbase, hred.trans ha⟩
  cases force with
  | false =>
      cases hj : jsGet st.contracts name with
      | none =>
          have hred : deployIfNeeded false env name st = doDeploy env name st := by
            unfold deployIfNeeded
            rw [hj]
          exact Or.inr (hdo st.contracts (Or.inl rfl) hred)
      | some addr =>
          by_cases hA : (addr == "") = true
          · have hred : deployIfNeeded false env name st = doDeploy env name st := by
              unfold deployIfNeeded
              rw [hj]
              simp [hA]
            exact Or.inr (hdo st.contracts (Or.inl rfl) hred)
          · have hA2 : (addr == "") = false := by simpa using hA
            by_cases hL : isContractDeployed env (some addr) = true
            · have hred : deployIfNeeded false env name st = ([], .ok (addr, st)) := by
                unfold deployIfNeeded
                rw [hj]
                simp [hA2, hL]
              exact Or.inl ⟨addr, rfl, rfl, hL, hred⟩
            · have hL2 : isContractDeployed env (some addr) = false := by simpa using hL
              have hred : deployIfNeeded false env name st =
                  doDeploy env name { st with contracts := removeUnit name st.contracts } := by
                unfold deployIfNeeded
                rw [hj]
                simp [hA2, hL2]
              exact Or.inr (hdo (removeUnit name st.contracts) (Or.inr rfl) hred)
  | true =>
      cases hj : jsGet st.contracts name with
      | none =>
          have hred : deployIfNeeded true env name st = doDeploy env name st := by
            unfold deployIfNeeded
            rw [hj]
          exact Or.inr (hdo st.contracts (Or.inl rfl) hred)
      | some addr =>
          by_cases hA : (addr == "") = true
          · have hred : deployIfNeeded true env name st = doDeploy env name st := by
              unfold deployIfNeeded
              rw [hj]
              simp [hA]
            exact Or.inr (hdo st.contracts (Or.inl rfl) hred)
          · have hA2 : (addr == "") = false := by simpa using hA
            have hred : deployIfNeeded true env name st =
                doDeploy env name { st with contracts := removeUnit name st.contracts } := by
              unfold deployIfNeeded
              rw [hj]
              simp [hA2]
            exact Or.inr (hdo (removeUnit name st.contracts) (Or.inr rfl) hred)

/-- Idempotent skip at the function level: a truthy cached address that the
chain client reports live is returned unchanged, with no events at all. -/
theorem dif_skip (env : Env) (name a : String) (st : DeploymentState)
    (h1 : jsGet st.contracts name = some a)
    (h2 : isContractDeployed env (some a) = true) :
    deployIfNeeded false env name st = ([], .ok (a, st)) := by
  have hA : (a == "") = false := by
    by_cases h : (a == "") = true
    · simp [isContractDeployed, h] at h2
    · simpa using h
  unfold deployIfNeeded
  simp [h1, hA, h2]

end TREXDeploy

namespace TREXDeploy

/-! ### A generic invariant/trace lemma for the run loop -/

theorem runSteps_inv (force : Bool) (env : Env) (P : DeploymentState → Prop)
    (E : Event → Prop) :
    ∀ (plan : List Step),
      (∀ s ∈ plan, ∀ st0, P st0 →
          (∀ e ∈ (execStep force env st0 s).1, E e) ∧
          (∀ x ∈ flushes (execStep force env st0 s).1, P x) ∧
          (∀ st', (execStep force env st0 s).2 = .ok st' → P st')) →
      ∀ st, P st →
        (∀ e ∈ (runSteps force env plan st).1, E e) ∧
        (∀ x ∈ flushes (runSteps force env plan st).1, P x) ∧
        (∀ st', (runSteps force env plan st).2 = .ok st' → P st')
  | [] => by
      intro _ st hP
      refine ⟨?_, ?_, ?_⟩
      · intro e he
        simp [runSteps] at he
      · intro x hx
        simp [runSteps, flushes] at hx
      · intro st' h
        simp [runSteps] at h
        exact h ▸ hP
  | s :: rest => by
      intro hstep st hP
      have hs := hstep s (List.mem_cons_self _ _) st hP
      have hrest := runSteps_inv force env P E rest
        (fun s2 hs2 => hstep s2 (List.mem_cons_of_mem _ hs2))
      rw [runSteps_cons]
      cases hE : execStep force env st s with
      | mk ev r =>
        rw [hE] at hs
        cases r with
        | error e =>
            refine ⟨hs.1, hs.2.1, ?_⟩
            intro st' h
            simp at h
        | ok st1 =>
            have hP1 := hs.2.2 st1 rfl
            have h2 := hrest st1 hP1
            dsimp only
            refine ⟨?_, ?_, ?_⟩
            · intro e he
              rcases List.mem_append.mp he with h | h
              · exact hs.1 e h
              · exact h2.1 e h
            · intro x hx
              rw [flushes_append] at hx
              rcases List.mem_append.mp hx with h | h
              · exact hs.2.1 x h
              · exact h2.2.1 x h
            · intro st' h
              exact h2.2.2 st' h

/-! ### Field bookkeeping of the two updateProgress forms -/

theorem updProgress_fields (env : Env) (sp : Nat) (d : String) (st : DeploymentState) :
    (updProgress env sp d st).timestamp = st.timestamp ∧
    (updProgress env sp d st).deployer = st.deployer ∧
    (updProgress env sp d st).contracts = st.contracts ∧
    (updProgress env sp d st).completed = st.completed ∧
    (updProgress env sp d st).completedAt = st.completedAt ∧
    (updProgress env sp d st).progress.step = sp ∧
    (updProgress env sp d st).progress.versionConfigured = st.progress.versionConfigured ∧
    (updProgress env sp d st).progress.identityFactoryConfigured =
      st.progress.identityFactoryConfigured ∧
    (updProgress env sp d st).progress.trexFactoryConfigured =
      st.progress.trexFactoryConfigured ∧
    (updProgress env sp d st).progress.iaFactoryConfigured =
      st.progress.iaFactoryConfigured := by
  unfold updProgress
  simp

theorem updProgressC_fields (env : Env) (sp : Nat) (d n a : String) (st : DeploymentState) :
    (updProgressC env sp d n a st).timestamp = st.timestamp ∧
    (updProgressC env sp d n a st).deployer = st.deployer ∧
    (updProgressC env sp d n a st).completed = st.completed ∧
    (updProgressC env sp d n a st).completedAt = st.completedAt ∧
    (updProgressC env sp d n a st).progress.step = sp ∧
    (updProgressC env sp d n a st).progress.versionConfigured =
      st.progress.versionConfigured ∧
    (updProgressC env sp d n a st).progress.identityFactoryConfigured =
      st.progress.identityFactoryConfigured ∧
    (updProgressC env sp d n a st).progress.trexFactoryConfigured =
      st.progress.trexFactoryConfigured ∧
    (updProgressC env sp d n a st).progress.iaFactoryConfigured =
      st.progress.iaFactoryConfigured := by
  unfold updProgressC updProgress
  split <;> simp

theorem updProgressC_contracts (env : Env) (sp : Nat) (d n a : String)
    (st : DeploymentState) :
    (updProgressC env sp d n a st).contracts =
      if (!(n == "") && !(a == "")) = true then setUnit n a st.contracts
      else st.contracts := by
  unfold updProgressC updProgress
  split <;> simp_all

end TREXDeploy

namespace TREXDeploy

theorem flagSet_fields (f : Flag) (st : DeploymentState) :
    (flagSet f st).timestamp = st.timestamp ∧
    (flagSet f st).deployer = st.deployer ∧
    (flagSet f st).contracts = st.contracts ∧
    (flagSet f st).completed = st.completed ∧
    (flagSet f st).completedAt = st.completedAt ∧
    (flagSet f st).progress.step = st.progress.step := by
  cases f <;> simp [flagSet]

/-- No step of the plan changes the `timestamp` (createdAt) field: neither
in the states it flushes nor in the state it hands to the next step. -/
theorem exec_ts (force : Bool) (env : Env) (s : Step) (st0 : DeploymentState) :
    (∀ x ∈ flushes (execStep force env st0 s).1, x.timestamp = st0.timestamp) ∧
    (∀ st', (execStep force env st0 s).2 = .ok st' → st'.timestamp = st0.timestamp) := by
  cases s with
  | setProgress sp d =>
      constructor
      · intro x hx
        simp [execStep, flushes] at hx
        subst hx
        exact (updProgress_fields env sp d st0).1
      · intro st' h
        simp [execStep] at h
        exact h ▸ (updProgress_fields env sp d st0).1
  | deployC art u sp d =>
      cases hres : env.resolve art with
      | error e =>
          constructor
          · intro x hx
            simp [execStep, hres, flushes] at hx
          · intro st' h
            simp [execStep, hres] at h
      | ok w =>
          rcases dif_shape force env u st0 with
            ⟨a, _, _, _, hd⟩ | ⟨e, hd⟩ | ⟨a2, base, hb, hd⟩
          · have hexec : execStep force env st0 (.deployC art u sp d) =
                ([.flush (updProgressC env sp d u a st0)],
                 .ok (updProgressC env sp d u a st0)) := by
              simp [execStep, hres, hd]
            rw [hexec]
            constructor
            · intro x hx
              simp [flushes] at hx
              subst hx
              exact (updProgressC_fields env sp d u a st0).1
            · intro st' h
              simp at h
              exact h ▸ (updProgressC_fields env sp d u a st0).1
          · have hexec : execStep force env st0 (.deployC art u sp d) =
                ([.deployCall u], .error e) := by
              simp [execStep, hres, hd]
            rw [hexec]
            constructor
            · intro x hx
              simp [flushes] at hx
            · intro st' h
              simp at h
          · have hexec : execStep force env st0 (.deployC art u sp d) =
                ([.deployCall u,
                  .flush { st0 with contracts := setUnit u a2 base },
                  .flush (updProgressC env sp d u a2
                    { st0 with contracts := setUnit u a2 base })],
                 .ok (updProgressC env sp d u a2
                    { st0 with contracts := setUnit u a2 base })) := by
              simp [execStep, hres, hd]
            rw [hexec]
            constructor
            · intro x hx
              simp [flushes] at hx
              rcases hx with hx | hx
              · subst hx
                rfl
              · subst hx
                exact (updProgressC_fields env sp d u a2 _).1
            · intro st' h
              simp at h
              exact h ▸ (updProgressC_fields env sp d u a2 _).1
  | versionCfg =>
      by_cases hn : needsVersionConfig st0 = true
      · cases hinv : env.invoke "addAndUseTREXVersion" with
        | error e =>
            constructor
            · intro x hx
              simp [execStep, hn, hinv, flushes] at hx
            · intro st' h
              simp [execStep, hn, hinv] at h
        | ok w =>
            constructor
            · intro x hx
              simp [execStep, hn, hinv, flushes] at hx
            · intro st' h
              simp [execStep, hn, hinv] at h
              exact h ▸ (flagSet_fields .version st0).1
      · have hn2 : needsVersionConfig st0 = false := by simpa using hn
        constructor
        · intro x hx
          simp [execStep, hn2, flushes] at hx
        · intro st' h
          simp [execStep, hn2] at h
          exact h ▸ rfl
  | action f act subs =>
      by_cases hf : flagGet st0 f = true
      · constructor
        · intro x hx
          simp [execStep, hf, flushes] at hx
        · intro st' h
          simp [execStep, hf] at h
          exact h ▸ rfl
      · have hf2 : flagGet st0 f = false := by simpa using hf
        cases hinv : env.invoke act with
        | error e =>
            by_cases hm : (subs.any (fun sub => strContains e sub)) = true
            · constructor
              · intro x hx
                simp [execStep, hf2, hinv, hm, flushes] at hx
              · intro st' h
                simp [execStep, hf2, hinv, hm] at h
                exact h ▸ (flagSet_fields f st0).1
            · have hm2 : (subs.any (fun sub => strContains e sub)) = false := by
                simpa using hm
              constructor
              · intro x hx
                simp [execStep, hf2, hinv, hm2, flushes] at hx
              · intro st' h
                simp [execStep, hf2, hinv, hm2] at h
        | ok w =>
            constructor
            · intro x hx
              simp [execStep, hf2, hinv, flushes] at hx
            · intro st' h
              simp [execStep, hf2, hinv] at h
              exact h ▸ (flagSet_fields f st0).1
  | finish =>
      constructor
      · intro x hx
        simp [execStep, flushes] at hx
        rcases hx with hx | hx
        · subst hx
          simp [updProgress]
        · subst hx
          simp [updProgress]
      · intro st' h
        simp [execStep] at h
        subst h
        simp [updProgress]

end TREXDeploy

namespace TREXDeploy

theorem flagGet_updProgress (env : Env) (sp : Nat) (d : String)
    (st : DeploymentState) (f : Flag) :
    flagGet (updProgress env sp d st) f = flagGet st f := by
  cases f <;> simp [flagGet, updProgress]

theorem flagGet_updProgressC (env : Env) (sp : Nat) (d n a : String)
    (st : DeploymentState) (f : Flag) :
    flagGet (updProgressC env sp d n a st) f = flagGet st f := by
  unfold updProgressC updProgress
  split <;> cases f <;> rfl

theorem flagGet_flagSet_ne (f2 f : Flag) (hne : f2 ≠ f) (st : DeploymentState) :
    flagGet (flagSet f2 st) f = flagGet st f := by
  cases f2 <;> cases f <;> simp_all [flagGet, flagSet]

/-- No step other than `finish` touches the `completed` field, and none of
them writes the archival backup. -/
theorem exec_nonfinish (force : Bool) (env : Env) (s : Step) (st0 : DeploymentState)
    (hs : s ≠ Step.finish) :
    (∀ e ∈ (execStep force env st0 s).1, isBackup e = false) ∧
    (∀ x ∈ flushes (execStep force env st0 s).1, x.completed = st0.completed) ∧
    (∀ st', (execStep force env st0 s).2 = .ok st' → st'.completed = st0.completed) := by
  cases s with
  | setProgress sp d =>
      refine ⟨?_, ?_, ?_⟩
      · intro e he
        simp [execStep] at he
        subst he
        rfl
      · intro x hx
        simp [execStep, flushes] at hx
        subst hx
        exact (updProgress_fields env sp d st0).2.2.2.1
      · intro st' h
        simp [execStep] at h
        exact h ▸ (updProgress_fields env sp d st0).2.2.2.1
  | deployC art u sp d =>
      cases hres : env.resolve art with
      | error e =>
          refine ⟨?_, ?_, ?_⟩
          · intro e2 he
            simp [execStep, hres] at he
          · intro x hx
            simp [execStep, hres, flushes] at hx
          · intro st' h
            simp [execStep, hres] at h
      | ok w =>
          rcases dif_shape force env u st0 with
            ⟨a, _, _, _, hd⟩ | ⟨e, hd⟩ | ⟨a2, base, hb, hd⟩
          · have hexec : execStep force env st0 (.deployC art u sp d) =
                ([.flush (updProgressC env sp d u a st0)],
                 .ok (updProgressC env sp d u a st0)) := by
              simp [execStep, hres, hd]
            rw [hexec]
            refine ⟨?_, ?_, ?_⟩
            · intro e2 he
              simp at he
              subst he
              rfl
            · intro x hx
              simp [flushes] at hx
              subst hx
              exact (updProgressC_fields env sp d u a st0).2.2.1
            · intro st' h
              simp at h
              exact h ▸ (updProgressC_fields env sp d u a st0).2.2.1
          · have hexec : execStep force env st0 (.deployC art u sp d) =
                ([.deployCall u], .error e) := by
              simp [execStep, hres, hd]
            rw [hexec]
            refine ⟨?_, ?_, ?_⟩
            · intro e2 he
              simp at he
              subst he
              rfl
            · intro x hx
              simp [flushes] at hx
            · intro st' h
              simp at h
          · have hexec : execStep force env st0 (.deployC art u sp d) =
                ([.deployCall u,
                  .flush { st0 with contracts := setUnit u a2 base },
                  .flush (updProgressC env sp d u a2
                    { st0 with contracts := setUnit u a2 base })],
                 .ok (updProgressC env sp d u a2
                    { st0 with contracts := setUnit u a2 base })) := by
              simp [execStep, hres, hd]
            rw [hexec]
            refine ⟨?_, ?_, ?_⟩
            · intro e2 he
              simp at he
              rcases he with he | he | he <;> subst he <;> rfl
            · intro x hx
              simp [flushes] at hx
              rcases hx with hx | hx
              · subst hx
                rfl
              · subst hx
                exact (updProgressC_fields env sp d u a2 _).2.2.1
            · intro st' h
              simp at h
              exact h ▸ (updProgressC_fields env sp d u a2 _).2.2.1
  | versionCfg =>
      by_cases hn : needsVersionConfig st0 = true
      · cases hinv : env.invoke "addAndUseTREXVersion" with
        | error e =>
            refine ⟨?_, ?_, ?_⟩
            · intro e2 he
              simp [execStep, hn, hinv] at he
              subst he
              rfl
            · intro x hx
              simp [execStep, hn, hinv, flushes] at hx
            · intro st' h
              simp [execStep, hn, hinv] at h
        | ok w =>
            refine ⟨?_, ?_, ?_⟩
            · intro e2 he
              simp [execStep, hn, hinv] at he
              subst he
              rfl
            · intro x hx
              simp [execStep, hn, hinv, flushes] at hx
            · intro st' h
              simp [execStep, hn, hinv] at h
              exact h ▸ (flagSet_fields .version st0).2.2.2.1
      · have hn2 : needsVersionConfig st0 = false := by simpa using hn
        refine ⟨?_, ?_, ?_⟩
        · intro e2 he
          simp [execStep, hn2] at he
        · intro x hx
          simp [execStep, hn2, flushes] at hx
        · intro st' h
          simp [execStep, hn2] at h
          exact h ▸ rfl
  | action f act subs =>
      by_cases hf : flagGet st0 f = true
      · refine ⟨?_, ?_, ?_⟩
        · intro e2 he
          simp [execStep, hf] at he
        · intro x hx
          simp [execStep, hf, flushes] at hx
        · intro st' h
          simp [execStep, hf] at h
          exact h ▸ rfl
      · have hf2 : flagGet st0 f = false := by simpa using hf
        cases hinv : env.invoke act with
        | error e =>
            by_cases hm : (subs.any (fun sub => strContains e sub)) = true
            · refine ⟨?_, ?_, ?_⟩
              · intro e2 he
                simp [execStep, hf2, hinv, hm] at he
                subst he
                rfl
              · intro x hx
                simp [execStep, hf2, hinv, hm, flushes] at hx
              · intro st' h
                simp [execStep, hf2, hinv, hm] at h
                exact h ▸ (flagSet_fields f st0).2.2.2.1
            · have hm2 : (subs.any (fun sub => strContains e sub)) = false := by
                simpa using hm
              refine ⟨?_, ?_, ?_⟩
              · intro e2 he
                simp [execStep, hf2, hinv, hm2] at he
                subst he
                rfl
              · intro x hx
                simp [execStep, hf2, hinv, hm2, flushes] at hx
              · intro st' h
                simp [execStep, hf2, hinv, hm2] at h
        | ok w =>
            refine ⟨?_, ?_, ?_⟩
            · intro e2 he
              simp [execStep, hf2, hinv] at he
              subst he
              rfl
            · intro x hx
              simp [execStep, hf2, hinv, flushes] at hx
            · intro st' h
              simp [execStep, hf2, hinv] at h
              exact h ▸ (flagSet_fields f st0).2.2.2.1
  | finish => exact absurd rfl hs

end TREXDeploy

namespace TREXDeploy

/-- A step changes no guard flag other than its own. -/
theorem exec_flag_frame (force : Bool) (env : Env) (s : Step) (st0 : DeploymentState)
    (f : Flag) (hf : stepFlag s ≠ some f) :
    ∀ st', (execStep force env st0 s).2 = .ok st' → flagGet st' f = flagGet st0 f := by
  cases s with
  | setProgress sp d =>
      intro st' h
      simp [execStep] at h
      exact h ▸ flagGet_updProgress env sp d st0 f
  | deployC art u sp d =>
      intro st' h
      cases hres : env.resolve art with
      | error e => simp [execStep, hres] at h
      | ok w =>
          rcases dif_shape force env u st0 with
            ⟨a, _, _, _, hd⟩ | ⟨e, hd⟩ | ⟨a2, base, hb, hd⟩
          · simp [execStep, hres, hd] at h
            exact h ▸ flagGet_updProgressC env sp d u a st0 f
          · simp [execStep, hres, hd] at h
          · simp [execStep, hres, hd] at h
            refine h ▸ (flagGet_updProgressC env sp d u a2 _ f).trans ?_
            cases f <;> rfl
  | versionCfg =>
      intro st' h
      have hne : Flag.version ≠ f := by
        intro heq
        exact hf (by simp [stepFlag, heq])
      by_cases hn : needsVersionConfig st0 = true
      · cases hinv : env.invoke "addAndUseTREXVersion" with
        | error e => simp [execStep, hn, hinv] at h
        | ok w =>
            simp [execStep, hn, hinv] at h
            exact h ▸ flagGet_flagSet_ne .version f hne st0
      · have hn2 : needsVersionConfig st0 = false := by simpa using hn
        simp [execStep, hn2] at h
        exact h ▸ rfl
  | action f2 act subs =>
      intro st' h
      have hne : f2 ≠ f := by
        intro heq
        exact hf (by simp [stepFlag, heq])
      by_cases hfl : flagGet st0 f2 = true
      · simp [execStep, hfl] at h
        exact h ▸ rfl
      · have hfl2 : flagGet st0 f2 = false := by simpa using hfl
        cases hinv : env.invoke act with
        | error e =>
            by_cases hm : (subs.any (fun sub => strContains e sub)) = true
            · simp [execStep, hfl2, hinv, hm] at h
              exact h ▸ flagGet_flagSet_ne f2 f hne st0
            · have hm2 : (subs.any (fun sub => strContains e sub)) = false := by
                simpa using hm
              simp [execStep, hfl2, hinv, hm2] at h
        | ok w =>
            simp [execStep, hfl2, hinv] at h
            exact h ▸ flagGet_flagSet_ne f2 f hne st0
  | finish =>
      intro st' h
      simp [execStep] at h
      refine h ▸ ?_
      cases f <;> simp [flagGet, updProgress]

/-- With a fixed environment that reports the cached address of unit `U`
live, no step deploys `U` and every step preserves the ledger binding
`U` to `A`, both in every flushed state and in the state handed on. -/
theorem exec_keepUnit (env : Env) (U A : String)
    (hlive : isContractDeployed env (some A) = true) (s : Step) (st0 : DeploymentState)
    (hP : jsGet st0.contracts U = some A) :
    (∀ e ∈ (execStep false env st0 s).1, e ≠ .deployCall U) ∧
    (∀ x ∈ flushes (execStep false env st0 s).1, jsGet x.contracts U = some A) ∧
    (∀ st', (execStep false env st0 s).2 = .ok st' → jsGet st'.contracts U = some A) := by
  have hkeepC : ∀ (sp : Nat) (d n a : String) (stx : DeploymentState),
      jsGet stx.contracts U = some A → n ≠ U →
      jsGet (updProgressC env sp d n a stx).contracts U = some A := by
    intro sp d n a stx hx hne
    rw [updProgressC_contracts]
    split
    · rw [jsGet_setUnit_ne n a U hne]
      exact hx
    · exact hx
  have hkeepCU : ∀ (sp : Nat) (d a : String) (stx : DeploymentState),
      jsGet stx.contracts U = some A →
      jsGet (updProgressC env sp d U a stx).contracts U = some a ∨
      jsGet (updProgressC env sp d U a stx).contracts U = some A := by
    intro sp d a stx hx
    rw [updProgressC_contracts]
    split
    · exact Or.inl (jsGet_setUnit_self U a _)
    · exact Or.inr hx
  cases s with
  | setProgress sp d =>
      refine ⟨?_, ?_, ?_⟩
      · intro e he
        simp [execStep] at he
        subst he
        simp
      · intro x hx
        simp [execStep, flushes] at hx
        subst hx
        rw [(updProgress_fields env sp d st0).2.2.1]
        exact hP
      · intro st' h
        simp [execStep] at h
        rw [← h, (updProgress_fields env sp d st0).2.2.1]
        exact hP
  | deployC art u sp d =>
      cases hres : env.resolve art with
      | error e =>
          refine ⟨?_, ?_, ?_⟩
          · intro e2 he
            simp [execStep, hres] at he
          · intro x hx
            simp [execStep, hres, flushes] at hx
          · intro st' h
            simp [execStep, hres] at h
      | ok w =>
          by_cases hU : u = U
          · subst hU
            have hd := dif_skip env u A st0 hP hlive
            have hexec : execStep false env st0 (.deployC art u sp d) =
                ([.flush (updProgressC env sp d u A st0)],
                 .ok (updProgressC env sp d u A st0)) := by
              simp [execStep, hres, hd]
            rw [hexec]
            refine ⟨?_, ?_, ?_⟩
            · intro e2 he
              simp at he
              subst he
              simp
            · intro x hx
              simp [flushes] at hx
              subst hx
              rcases hkeepCU sp d A st0 hP with h | h <;> exact h
            · intro st' h
              simp at h
              subst h
              rcases hkeepCU sp d A st0 hP with h | h <;> exact h
          · have hbase : ∀ base, (base = st0.contracts ∨ base = removeUnit u st0.contracts) →
                jsGet base U = some A := by
              intro base hb
              rcases hb with hb | hb
              · exact hb ▸ hP
              · rw [hb, jsGet_removeUnit_ne u U hU st0.contracts]
                exact hP
            rcases dif_shape false env u st0 with
              ⟨a, _, _, _, hd⟩ | ⟨e, hd⟩ | ⟨a2, base, hb, hd⟩
            · have hexec : execStep false env st0 (.deployC art u sp d) =
                  ([.flush (updProgressC env sp d u a st0)],
                   .ok (updProgressC env sp d u a st0)) := by
                simp [execStep, hres, hd]
              rw [hexec]
              refine ⟨?_, ?_, ?_⟩
              · intro e2 he
                simp at he
                subst he
                simp
              · intro x hx
                simp [flushes] at hx
                subst hx
                exact hkeepC sp d u a st0 hP hU
              · intro st' h
                simp at h
                exact h ▸ hkeepC sp d u a st0 hP hU
            · have hexec : execStep false env st0 (.deployC art u sp d) =
                  ([.deployCall u], .error e) := by
                simp [execStep, hres, hd]
              rw [hexec]
              refine ⟨?_, ?_, ?_⟩
              · intro e2 he
                simp at he
                subst he
                simp [hU]
              · intro x hx
                simp [flushes] at hx
              · intro st' h
                simp at h
            · have hX : jsGet ({ st0 with contracts := setUnit u a2 base } :
                  DeploymentState).contracts U = some A := by
                rw [show ({ st0 with contracts := setUnit u a2 base } :
                      DeploymentState).contracts = setUnit u a2 base from rfl,
                    jsGet_setUnit_ne u a2 U hU]
                exact hbase base hb
              have hexec : execStep false env st0 (.deployC art u sp d) =
                  ([.deployCall u,
                    .flush { st0 with contracts := setUnit u a2 base },
                    .flush (updProgressC env sp d u a2
                      { st0 with contracts := setUnit u a2 base })],
                   .ok (updProgressC env sp d u a2
                      { st0 with contracts := setUnit u a2 base })) := by
                simp [execStep, hres, hd]
              rw [hexec]
              refine ⟨?_, ?_, ?_⟩
              · intro e2 he
                simp at he
                rcases he with he | he | he <;> subst he <;> simp [hU]
              · intro x hx
                simp [flushes] at hx
                rcases hx with hx | hx
                · subst hx
                  exact hX
                · subst hx
                  exact hkeepC sp d u a2 _ hX hU
              · intro st' h
                simp at h
                exact h ▸ hkeepC sp d u a2 _ hX hU
  | versionCfg =>
      by_cases hn : needsVersionConfig st0 = true
      · cases hinv : env.invoke "addAndUseTREXVersion" with
        | error e =>
            refine ⟨?_, ?_, ?_⟩
            · intro e2 he
              simp [execStep, hn, hinv] at he
              subst he
              simp
            · intro x hx
              simp [execStep, hn, hinv, flushes] at hx
            · intro st' h
              simp [execStep, hn, hinv] at h
        | ok w =>
            refine ⟨?_, ?_, ?_⟩
            · intro e2 he
              simp [execStep, hn, hinv] at he
              subst he
              simp
            · intro x hx
              simp [execStep, hn, hinv, flushes] at hx
            · intro st' h
              simp [execStep, hn, hinv] at h
              rw [← h, (flagSet_fields .version st0).2.2.1]
              exact hP
      · have hn2 : needsVersionConfig st0 = false := by simpa using hn
        refine ⟨?_, ?_, ?_⟩
        · intro e2 he
          simp [execStep, hn2] at he
        · intro x hx
          simp [execStep, hn2, flushes] at hx
        · intro st' h
          simp [execStep, hn2] at h
          exact h ▸ hP
  | action f act subs =>
      by_cases hf : flagGet st0 f = true
      · refine ⟨?_, ?_, ?_⟩
        · intro e2 he
          simp [execStep, hf] at he
        · intro x hx
          simp [execStep, hf, flushes] at hx
        · intro st' h
          simp [execStep, hf] at h
          exact h ▸ hP
      · have hf2 : flagGet st0 f = false := by simpa using hf
        cases hinv : env.invoke act with
        | error e =>
            by_cases hm : (subs.any (fun sub => strContains e sub)) = true
            · refine ⟨?_, ?_, ?_⟩
              · intro e2 he
                simp [execStep, hf2, hinv, hm] at he
                subst he
                simp
              · intro x hx
                simp [execStep, hf2, hinv, hm, flushes] at hx
              · intro st' h
                simp [execStep, hf2, hinv, hm] at h
                rw [← h, (flagSet_fields f st0).2.2.1]
                exact hP
            · have hm2 : (subs.any (fun sub => strContains e sub)) = false := by
                simpa using hm
              refine ⟨?_, ?_, ?_⟩
              · intro e2 he
                simp [execStep, hf2, hinv, hm2] at he
                subst he
                simp
              · intro x hx
                simp [execStep, hf2, hinv, hm2, flushes] at hx
              · intro st' h
                simp [execStep, hf2, hinv, hm2] at h
        | ok w =>
            refine ⟨?_, ?_, ?_⟩
            · intro e2 he
              simp [execStep, hf2, hinv] at he
              subst he
              simp
            · intro x hx
              simp [execStep, hf2, hinv, flushes] at hx
            · intro st' h
              simp [execStep, hf2, hinv] at h
              rw [← h, (flagSet_fields f st0).2.2.1]
              exact hP
  | finish =>
      refine ⟨?_, ?_, ?_⟩
      · intro e2 he
        simp [execStep] at he
        rcases he with he | he | he <;> subst he <;> simp
      · intro x hx
        simp [execStep, flushes] at hx
        rcases hx with hx | hx
        · subst hx
          simp [updProgress, jsGet]
          exact hP
        · subst hx
          simp [updProgress, jsGet]
          exact hP
      · intro st' h
        simp [execStep] at h
        rw [← h]
        simp [updProgress, jsGet]
        exact hP

end TREXDeploy

namespace TREXDeploy

/-- Within one run of the plan, the `progress.step` values of the flushed
states never decrease: each step flushes only the current or its own (not
smaller) step number and hands the plan on at that number. -/
theorem runSteps_chain (force : Bool) (env : Env) :
    ∀ (plan : List Step) (st : DeploymentState),
      planOK st.progress.step plan = true →
      List.Chain' (· ≤ ·) (st.progress.step :: flushSteps (runSteps force env plan st).1)
  | [], st => by
      intro _
      simp [runSteps, flushSteps, flushes]
  | s :: rest, st => by
      intro hok
      rw [runSteps_cons]
      cases s with
      | setProgress sp d =>
          simp only [planOK, Bool.and_eq_true, decide_eq_true_eq] at hok
          have hst' : (updProgress env sp d st).progress.step = sp :=
            (updProgress_fields env sp d st).2.2.2.2.2.1
          have IH := runSteps_chain force env rest (updProgress env sp d st)
            (by rw [hst']; exact hok.2)
          rw [hst'] at IH
          have hexec : execStep force env st (.setProgress sp d) =
              ([.flush (updProgress env sp d st)], .ok (updProgress env sp d st)) := rfl
          rw [hexec]
          dsimp only
          rw [show ([Event.flush (updProgress env sp d st)] ++
                (runSteps force env rest (updProgress env sp d st)).1 : List Event) =
              Event.flush (updProgress env sp d st) ::
                (runSteps force env rest (updProgress env sp d st)).1 from rfl]
          rw [show flushSteps (Event.flush (updProgress env sp d st) ::
                (runSteps force env rest (updProgress env sp d st)).1) =
              sp :: flushSteps ((runSteps force env rest (updProgress env sp d st)).1) by
            simp [flushSteps, flushes, hst']]
          exact List.chain'_cons.mpr ⟨hok.1, IH⟩
      | deployC art u sp d =>
          simp only [planOK, Bool.and_eq_true, decide_eq_true_eq] at hok
          cases hres : env.resolve art with
          | error e =>
              have hexec : execStep force env st (.deployC art u sp d) =
                  ([], .error e) := by
                simp [execStep, hres]
              rw [hexec]
              simp [flushSteps, flushes]
          | ok w =>
              rcases dif_shape force env u st with
                ⟨a, _, _, _, hd⟩ | ⟨e, hd⟩ | ⟨a2, base, hb, hd⟩
              · have hst' : (updProgressC env sp d u a st).progress.step = sp :=
                  (updProgressC_fields env sp d u a st).2.2.2.2.1
                have IH := runSteps_chain force env rest (updProgressC env sp d u a st)
                  (by rw [hst']; exact hok.2)
                rw [hst'] at IH
                have hexec : execStep force env st (.deployC art u sp d) =
                    ([.flush (updProgressC env sp d u a st)],
                     .ok (updProgressC env sp d u a st)) := by
                  simp [execStep, hres, hd]
                rw [hexec]
                dsimp only
                rw [show flushSteps ([Event.flush (updProgressC env sp d u a st)] ++
                      (runSteps force env rest (updProgressC env sp d u a st)).1) =
                    sp :: flushSteps
                      ((runSteps force env rest (updProgressC env sp d u a st)).1) by
                  simp [flushSteps, flushes, hst']]
                exact List.chain'_cons.mpr ⟨hok.1, IH⟩
              · have hexec : execStep force env st (.deployC art u sp d) =
                    ([.deployCall u], .error e) := by
                  simp [execStep, hres, hd]
                rw [hexec]
                simp [flushSteps, flushes]
              · have hst1 : ({ st with contracts := setUnit u a2 base } :
                    DeploymentState).progress.step = st.progress.step := rfl
                have hst' : (updProgressC env sp d u a2
                    { st with contracts := setUnit u a2 base }).progress.step = sp :=
                  (updProgressC_fields env sp d u a2 _).2.2.2.2.1
                have IH := runSteps_chain force env rest
                  (updProgressC env sp d u a2 { st with contracts := setUnit u a2 base })
                  (by rw [hst']; exact hok.2)
                rw [hst'] at IH
                have hexec : execStep force env st (.deployC art u sp d) =
                    ([.deployCall u,
                      .flush { st with contracts := setUnit u a2 base },
                      .flush (updProgressC env sp d u a2
                        { st with contracts := setUnit u a2 base })],
                     .ok (updProgressC env sp d u a2
                        { st with contracts := setUnit u a2 base })) := by
                  simp [execStep, hres, hd]
                rw [hexec]
                dsimp only
                rw [show flushSteps ([Event.deployCall u,
                      Event.flush { st with contracts := setUnit u a2 base },
                      Event.flush (updProgressC env sp d u a2
                        { st with contracts := setUnit u a2 base })] ++
                      (runSteps force env rest (updProgressC env sp d u a2
                        { st with contracts := setUnit u a2 base })).1) =
                    st.progress.step :: sp :: flushSteps
                      ((runSteps force env rest (updProgressC env sp d u a2
                        { st with contracts := setUnit u a2 base })).1) by
                  simp [flushSteps, flushes, hst', hst1]]
                exact List.chain'_cons.mpr ⟨le_refl _,
                  List.chain'_cons.mpr ⟨hok.1, IH⟩⟩
      | versionCfg =>
          simp only [planOK] at hok
          by_cases hn : needsVersionConfig st = true
          · cases hinv : env.invoke "addAndUseTREXVersion" with
            | error e =>
                have hexec : execStep force env st .versionCfg =
                    ([.invokeCall "addAndUseTREXVersion"], .error e) := by
                  simp [execStep, hn, hinv]
                rw [hexec]
                simp [flushSteps, flushes]
            | ok w =>
                have hst' : (flagSet .version st).progress.step = st.progress.step :=
                  (flagSet_fields .version st).2.2.2.2.2
                have IH := runSteps_chain force env rest (flagSet .version st)
                  (by rw [hst']; exact hok)
                rw [hst'] at IH
                have hexec : execStep force env st .versionCfg =
                    ([.invokeCall "addAndUseTREXVersion"], .ok (flagSet .version st)) := by
                  simp [execStep, hn, hinv]
                rw [hexec]
                dsimp only
                rw [show flushSteps ([Event.invokeCall "addAndUseTREXVersion"] ++
                      (runSteps force env rest (flagSet .version st)).1) =
                    flushSteps ((runSteps force env rest (flagSet .version st)).1) by
                  simp [flushSteps, flushes]]
                exact IH
          · have hn2 : needsVersionConfig st = false := by simpa using hn
            have hexec : execStep force env st .versionCfg = ([], .ok st) := by
              simp [execStep, hn2]
            rw [hexec]
            dsimp only
            rw [show flushSteps (([] : List Event) ++ (runSteps force env rest st).1) =
                flushSteps ((runSteps force env rest st).1) from rfl]
            exact runSteps_chain force env rest st hok
      | action f act subs =>
          simp only [planOK] at hok
          by_cases hf : flagGet st f = true
          · have hexec : execStep force env st (.action f act subs) = ([], .ok st) := by
              simp [execStep, hf]
            rw [hexec]
            dsimp only
            rw [show flushSteps (([] : List Event) ++ (runSteps force env rest st).1) =
                flushSteps ((runSteps force env rest st).1) from rfl]
            exact runSteps_chain force env rest st hok
          · have hf2 : flagGet st f = false := by simpa using hf
            have hst' : (flagSet f st).progress.step = st.progress.step :=
              (flagSet_fields f st).2.2.2.2.2
            have IH := runSteps_chain force env rest (flagSet f st)
              (by rw [hst']; exact hok)
            rw [hst'] at IH
            cases hinv : env.invoke act with
            | error e =>
                by_cases hm : (subs.any (fun sub => strContains e sub)) = true
                · have hexec : execStep force env st (.action f act subs) =
                      ([.invokeCall act], .ok (flagSet f st)) := by
                    simp [execStep, hf2, hinv, hm]
                  rw [hexec]
                  dsimp only
                  rw [show flushSteps ([Event.invokeCall act] ++
                        (runSteps force env rest (flagSet f st)).1) =
                      flushSteps ((runSteps force env rest (flagSet f st)).1) by
                    simp [flushSteps, flushes]]
                  exact IH
                · have hm2 : (subs.any (fun sub => strContains e sub)) = false := by
                    simpa using hm
                  have hexec : execStep force env st (.action f act subs) =
                      ([.invokeCall act], .error e) := by
                    simp [execStep, hf2, hinv, hm2]
                  rw [hexec]
                  simp [flushSteps, flushes]
            | ok w =>
                have hexec : execStep force env st (.action f act subs) =
                    ([.invokeCall act], .ok (flagSet f st)) := by
                  simp [execStep, hf2, hinv]
                rw [hexec]
                dsimp only
                rw [show flushSteps ([Event.invokeCall act] ++
                      (runSteps force env rest (flagSet f st)).1) =
                    flushSteps ((runSteps force env rest (flagSet f st)).1) by
                  simp [flushSteps, flushes]]
                exact IH
      | finish =>
          simp only [planOK, Bool.and_eq_true, decide_eq_true_eq] at hok
          have hexec : execStep force env st .finish =
              ([.flush (updProgress env 80 "Deployment completed successfully!" st),
                .flush { updProgress env 80 "Deployment completed successfully!" st with
                         completed := true, completedAt := some env.doneTime },
                .backup { updProgress env 80 "Deployment completed successfully!" st with
                          completed := true, completedAt := some env.doneTime }],
               .ok { updProgress env 80 "Deployment completed successfully!" st with
                     completed := true, completedAt := some env.doneTime }) := rfl
          have hst' : ({ updProgress env 80 "Deployment completed successfully!" st with
              completed := true, completedAt := some env.doneTime } :
              DeploymentState).progress.step = 80 :=
            (updProgress_fields env 80 _ st).2.2.2.2.2.1
          have IH := runSteps_chain force env rest
            { updProgress env 80 "Deployment completed successfully!" st with
              completed := true, completedAt := some env.doneTime }
            (by rw [hst']; exact hok.2)
          rw [hst'] at IH
          rw [hexec]
          dsimp only
          rw [show flushSteps
                ([Event.flush (updProgress env 80 "Deployment completed successfully!" st),
                  Event.flush { updProgress env 80 "Deployment completed successfully!" st with
                                completed := true, completedAt := some env.doneTime },
                  Event.backup { updProgress env 80 "Deployment completed successfully!" st with
                                 completed := true, completedAt := some env.doneTime }] ++
                  (runSteps force env rest
                    { updProgress env 80 "Deployment completed successfully!" st with
                      completed := true, completedAt := some env.doneTime }).1) =
              80 :: 80 :: flushSteps ((runSteps force env rest
                  { updProgress env 80 "Deployment completed successfully!" st with
                    completed := true, completedAt := some env.doneTime }).1) by
            simp [flushSteps, flushes, hst',
              (updProgress_fields env 80 "Deployment completed successfully!" st).2.2.2.2.2.1]]
          exact List.chain'_cons.mpr ⟨hok.1, List.chain'_cons.mpr ⟨le_refl _, IH⟩⟩

end TREXDeploy

namespace TREXDeploy

/-- In force mode `deployIfNeeded` always submits the constructor
transaction: the skip branch is gated on the force flag being off. -/
theorem dif_force_deployCall (env : Env) (u : String) (st : DeploymentState) :
    Event.deployCall u ∈ (deployIfNeeded true env u st).1 := by
  rcases dif_shape true env u st with ⟨a, hfalse, _⟩ | ⟨e, hd⟩ | ⟨a2, base, hb, hd⟩
  · exact absurd hfalse (by simp)
  · rw [hd]
    simp
  · rw [hd]
    simp

/-- In a successful force-mode run that starts with every guard flag of the
plan unset (and whose plan guards each flag at most once), every unit
deployment and every configuration invocation of the plan is actually
submitted to the chain client. -/
theorem force_events (env : Env) :
    ∀ (plan : List Step) (st : DeploymentState) (tr : List Event) (stF : DeploymentState),
      runSteps true env plan st = (tr, .ok stF) →
      (∀ fl ∈ plan.filterMap stepFlag, flagGet st fl = false) →
      (plan.filterMap stepFlag).Nodup →
      ∀ e ∈ plan.filterMap mustEvent, e ∈ tr
  | [], st, tr, stF => by
      intro _ _ _ e he
      simp at he
  | s :: rest, st, tr, stF => by
      intro hrun hflags hnd e he
      rw [runSteps_cons] at hrun
      cases hE : execStep true env st s with
      | mk ev r =>
        rw [hE] at hrun
        cases r with
        | error e2 => simp at hrun
        | ok st1 =>
            dsimp only at hrun
            cases hR : runSteps true env rest st1 with
            | mk ev2 r2 =>
              rw [hR] at hrun
              dsimp only at hrun
              have htr : tr = ev ++ ev2 := by
                have := congrArg Prod.fst hrun
                simpa using this.symm
              have hr2 : r2 = .ok stF := by
                have := congrArg Prod.snd hrun
                simpa using this
              subst htr
              subst hr2
              have hflags1 : ∀ fl ∈ rest.filterMap stepFlag, flagGet st1 fl = false := by
                intro fl hfl
                have hne : stepFlag s ≠ some fl := by
                  cases hsf : stepFlag s with
                  | none => simp
                  | some f0 =>
                      intro hc
                      have hf0 : f0 = fl := by
                        simpa using hc
                      subst hf0
                      rw [List.filterMap_cons, hsf] at hnd
                      exact (List.nodup_cons.mp hnd).1 hfl
                have := exec_flag_frame true env s st fl hne st1 (by rw [hE])
                rw [this]
                exact hflags fl (by rw [List.filterMap_cons]
                                    cases hsf : stepFlag s <;> simp [hsf, hfl])
              have hnd1 : (rest.filterMap stepFlag).Nodup := by
                rw [List.filterMap_cons] at hnd
                cases hsf : stepFlag s with
                | none => rw [hsf] at hnd; exact hnd
                | some f0 => rw [hsf] at hnd; exact (List.nodup_cons.mp hnd).2
              rw [List.filterMap_cons] at he
              have htail : e ∈ rest.filterMap mustEvent → e ∈ ev ++ ev2 := by
                intro hmem
                exact List.mem_append_right ev
                  (force_events env rest st1 ev2 stF hR hflags1 hnd1 e hmem)
              cases hme : mustEvent s with
              | none =>
                  rw [hme] at he
                  exact htail he
              | some e0 =>
                  rw [hme] at he
                  rcases List.mem_cons.mp he with he0 | he0
                  · subst he0
                    refine List.mem_append_left ev2 ?_
                    cases s with
                    | setProgress sp d => simp [mustEvent] at hme
                    | finish => simp [mustEvent] at hme
                    | deployC art u sp d =>
                        have he0u : e = Event.deployCall u := by
                          simp [mustEvent] at hme
                          exact hme.symm
                        subst he0u
                        cases hres : env.resolve art with
                        | error e3 =>
                            rw [show execStep true env st (.deployC art u sp d) =
                                ([], .error e3) by simp [execStep, hres]] at hE
                            simp at hE
                        | ok w =>
                            cases hdd : deployIfNeeded true env u st with
                            | mk dev dr =>
                              cases dr with
                              | error e3 =>
                                  rw [show execStep true env st (.deployC art u sp d) =
                                      (dev, .error e3) by simp [execStep, hres, hdd]] at hE
                                  simp at hE
                              | ok p =>
                                  have hmem := dif_force_deployCall env u st
                                  rw [hdd] at hmem
                                  rw [show execStep true env st (.deployC art u sp d) =
                                      (dev ++ [.flush (updProgressC env sp d u p.1 p.2)],
                                       .ok (updProgressC env sp d u p.1 p.2)) by
                                    simp [execStep, hres, hdd]] at hE
                                  have : ev = dev ++
                                      [.flush (updProgressC env sp d u p.1 p.2)] := by
                                    have := congrArg Prod.fst hE
                                    simpa using this.symm
                                  subst this
                                  exact List.mem_append_left _ hmem
                    | versionCfg =>
                        have he0v : e = Event.invokeCall "addAndUseTREXVersion" := by
                          simp [mustEvent] at hme
                          exact hme.symm
                        subst he0v
                        have hfv : flagGet st .version = false :=
                          hflags .version (by simp [List.filterMap_cons, stepFlag])
                        have hn : needsVersionConfig st = true := by
                          simp [needsVersionConfig, flagGet] at hfv ⊢
                          simp [hfv]
                        cases hinv : env.invoke "addAndUseTREXVersion" with
                        | error e3 =>
                            rw [show execStep true env st .versionCfg =
                                ([.invokeCall "addAndUseTREXVersion"], .error e3) by
                              simp [execStep, hn, hinv]] at hE
                            simp at hE
                        | ok w =>
                            rw [show execStep true env st .versionCfg =
                                ([.invokeCall "addAndUseTREXVersion"],
                                 .ok (flagSet .version st)) by
                              simp [execStep, hn, hinv]] at hE
                            have : ev = [Event.invokeCall "addAndUseTREXVersion"] := by
                              have := congrArg Prod.fst hE
                              simpa using this.symm
                            subst this
                            simp
                    | action f act subs =>
                        have he0a : e = Event.invokeCall act := by
                          simp [mustEvent] at hme
                          exact hme.symm
                        subst he0a
                        have hfa : flagGet st f = false :=
                          hflags f (by simp [List.filterMap_cons, stepFlag])
                        cases hinv : env.invoke act with
                        | error e3 =>
                            by_cases hm : (subs.any (fun sub => strContains e3 sub)) = true
                            · rw [show execStep true env st (.action f act subs) =
                                  ([.invokeCall act], .ok (flagSet f st)) by
                                simp [execStep, hfa, hinv, hm]] at hE
                              have : ev = [Event.invokeCall act] := by
                                have := congrArg Prod.fst hE
                                simpa using this.symm
                              subst this
                              simp
                            · have hm2 : (subs.any (fun sub => strContains e3 sub)) = false := by
                                simpa using hm
                              rw [show execStep true env st (.action f act subs) =
                                  ([.invokeCall act], .error e3) by
                                simp [execStep, hfa, hinv, hm2]] at hE
                              simp at hE
                        | ok w =>
                            rw [show execStep true env st (.action f act subs) =
                                ([.invokeCall act], .ok (flagSet f st)) by
                              simp [execStep, hfa, hinv]] at hE
                            have : ev = [Event.invokeCall act] := by
                              have := congrArg Prod.fst hE
                              simpa using this.symm
                            subst this
                            simp
                  · exact htail he0

end TREXDeploy

namespace TREXDeploy

/-! ### Reduction equations for the top level -/

theorem mapOutcome_fst (p : List Event × Except String DeploymentState) :
    (mapOutcome p).1 = p.1 := rfl

theorem mapOutcome_ok (p : List Event × Except String DeploymentState)
    (st : DeploymentState) :
    (mapOutcome p).2 = .ok (some st) ↔ p.2 = .ok st := by
  cases hp : p.2 <;> simp [mapOutcome, hp]

theorem runMain_eq_force (env : Env) :
    runMain true env = mapOutcome (runBody true env (forceInitState env)) := rfl

theorem runMain_eq_none (env : Env) (h : env.stored = none) :
    runMain false env = mapOutcome (runBody false env (initialState env)) := by
  unfold runMain
  rw [h]
  simp

theorem runMain_eq_completed (env : Env) (ex : DeploymentState)
    (h : env.stored = some ex) (hc : ex.completed = true) :
    runMain false env = ([], .ok none) := by
  unfold runMain
  rw [h]
  simp [hc]


theorem runMain_eq_resume (env : Env) (ex : DeploymentState)
    (h : env.stored = some ex) (hc : ex.completed = false) :
    runMain false env = mapOutcome (runBody false env (mergedState env ex)) := by
  unfold runMain
  rw [h]
  simp [hc]

/-- The preamble state of `runBody`: either the input state (deployer
already set) or the deployer-initialized state with its step-0 progress
update. -/
theorem runBody_eq (force : Bool) (env : Env) (st : DeploymentState) :
    runBody force env st =
      if truthy st.deployer then
        (match env.getBalance with
         | .error e => ([], .error e)
         | .ok _ => runSteps force env thePlan st)
      else
        ((Event.flush (updProgress env 0 "Initialized deployer"
            { st with deployer := some env.account0 })) ::
          (match env.getBalance with
           | .error e => ([], (.error e : Except String DeploymentState))
           | .ok _ => runSteps force env thePlan
               (updProgress env 0 "Initialized deployer"
                 { st with deployer := some env.account0 })).1,
         (match env.getBalance with
          | .error e => ([], (.error e : Except String DeploymentState))
          | .ok _ => runSteps force env thePlan
              (updProgress env 0 "Initialized deployer"
                { st with deployer := some env.account0 })).2) := by
  unfold runBody
  cases htr : truthy st.deployer with
  | false =>
      simp only [htr]
      cases hgb : env.getBalance <;> simp [hgb]
  | true =>
      simp only [htr]
      cases hgb : env.getBalance <;> simp [hgb]

/-- Lift the per-step invariant lemma through `runBody`. -/
theorem runBody_inv (force : Bool) (env : Env) (P : DeploymentState → Prop)
    (E : Event → Prop)
    (hstep : ∀ s ∈ thePlan, ∀ st0, P st0 →
        (∀ e ∈ (execStep force env st0 s).1, E e) ∧
        (∀ x ∈ flushes (execStep force env st0 s).1, P x) ∧
        (∀ st', (execStep force env st0 s).2 = .ok st' → P st'))
    (hupd : ∀ st0, P st0 → P (updProgress env 0 "Initialized deployer"
        { st0 with deployer := some env.account0 }))
    (hflushE : ∀ x, E (.flush x))
    (st : DeploymentState) (hP : P st) :
    (∀ e ∈ (runBody force env st).1, E e) ∧
    (∀ x ∈ flushes (runBody force env st).1, P x) ∧
    (∀ st', (runBody force env st).2 = .ok st' → P st') := by
  rw [runBody_eq]
  cases htr : truthy st.deployer with
  | false =>
      simp only [htr, Bool.false_eq_true, if_false]
      have hP1 := hupd st hP
      cases hgb : env.getBalance with
      | error e =>
          refine ⟨?_, ?_, ?_⟩
          · intro e2 he
            simp at he
            subst he
            exact hflushE _
          · intro x hx
            simp [flushes] at hx
            subst hx
            exact hP1
          · intro st' h
            simp at h
      | ok w =>
          have hmain := runSteps_inv force env P E thePlan hstep _ hP1
          refine ⟨?_, ?_, ?_⟩
          · intro e2 he
            simp at he
            rcases he with he | he
            · subst he
              exact hflushE _
            · exact hmain.1 e2 he
          · intro x hx
            simp [flushes] at hx
            rcases hx with hx | hx
            · subst hx
              exact hP1
            · exact hmain.2.1 x (by simpa [flushes] using hx)
          · intro st' h
            exact hmain.2.2 st' (by simpa using h)
  | true =>
      simp only [htr, if_true]
      cases hgb : env.getBalance with
      | error e =>
          refine ⟨?_, ?_, ?_⟩
          · intro e2 he
            simp at he
          · intro x hx
            simp [flushes] at hx
          · intro st' h
            simp at h
      | ok w =>
          exact runSteps_inv force env P E thePlan hstep st hP

end TREXDeploy

namespace TREXDeploy

/-! ### Claim theorems -/

/-- C5: For every input to the liveness check, if the address is missing
(falsy) or syntactically invalid, or if the chain-client code query throws,
the result is `Absent` (`false`) — never a propagated error (the embedding
is a total function) and never `Live` — so such units are scheduled for
redeploy. -/
theorem C5_reconciliation_fail_safe (env : Env) (address : Option String)
    (h : address = none ∨ address = some "" ∨
         (∃ a, address = some a ∧ env.isAddress a = false) ∨
         (∃ a, address = some a ∧ env.getCode a = .error ())) :
    isContractDeployed env address = false := by
  rcases h with h | h | ⟨a, h, hbad⟩ | ⟨a, h, hthrow⟩
  · subst h
    rfl
  · subst h
    rfl
  · subst h
    by_cases hA : (a == "") = true
    · simp [isContractDeployed, hA]
    · have hA2 : (a == "") = false := by simpa using hA
      simp [isContractDeployed, hA2, hbad]
  · subst h
    by_cases hA : (a == "") = true
    · simp [isContractDeployed, hA]
    · have hA2 : (a == "") = false := by simpa using hA
      by_cases hv : env.isAddress a = true
      · simp [isContractDeployed, hA2, hv, hthrow]
      · have hv2 : env.isAddress a = false := by simpa using hv
        simp [isContractDeployed, hA2, hv2]

theorem C5_reconciliation_fail_safe_witness :
    isContractDeployed envE5 (some "0x1234") = false :=
  C5_reconciliation_fail_safe envE5 (some "0x1234")
    (Or.inr (Or.inr (Or.inr ⟨"0x1234", rfl, rfl⟩)))

/-- C10: the liveness check is total (a Lean function into `Bool`, matching
the JS catch-all) and returns `true` exactly when it reaches the code query
— the address being truthy and syntactically valid — and that query
succeeds with a value that is neither `"0x"` nor `"0x0"`: the nonstandard
empty-code encoding `"0x0"` is also treated as Absent. -/
theorem C10_liveness_total_characterization (env : Env) (address : Option String) :
    isContractDeployed env address = true ↔
      ∃ a, address = some a ∧ a ≠ "" ∧ env.isAddress a = true ∧
        ∃ c, env.getCode a = .ok c ∧ c ≠ "0x" ∧ c ≠ "0x0" := by
  cases address with
  | none => simp [isContractDeployed]
  | some a =>
      by_cases hA : (a == "") = true
      · have : a = "" := by simpa using hA
        subst this
        simp [isContractDeployed]
      · have hA2 : (a == "") = false := by simpa using hA
        have hane : a ≠ "" := by simpa using hA
        by_cases hv : env.isAddress a = true
        · cases hc : env.getCode a with
          | error u => simp [isContractDeployed, hA2, hv, hc, hane]
          | ok c => simp [isContractDeployed, hA2, hv, hc, hane]
        · have hv2 : env.isAddress a = false := by simpa using hv
          simp [isContractDeployed, hA2, hv2, hane, hv]

theorem C10_liveness_total_characterization_witness :
    isContractDeployed envW (some "0xABC") = true :=
  (C10_liveness_total_characterization envW (some "0xABC")).mpr
    ⟨"0xABC", rfl, by decide, rfl, "0x6080", rfl, by decide, by decide⟩

/-- C9: the step-3 `addAndUseTREXVersion` configuration (guarded by the
`versionConfigured` flag) has no "already performed externally" recovery:
when the guard requires it to run and the chain client fails with any error
whatsoever — even one containing an "already" phrase — the error propagates
fatally and no flag is set (the step aborts before producing a state). -/
theorem C9_version_config_no_recovery (force : Bool) (env : Env)
    (st : DeploymentState) (e : String)
    (hinv : env.invoke "addAndUseTREXVersion" = .error e)
    (hneed : needsVersionConfig st = true) :
    execStep force env st .versionCfg =
      ([.invokeCall "addAndUseTREXVersion"], .error e) := by
  simp [execStep, hneed, hinv]

theorem C9_version_config_no_recovery_witness :
    execStep false env9 (initialState env9) .versionCfg =
      ([.invokeCall "addAndUseTREXVersion"], .error "version already in use") :=
  C9_version_config_no_recovery false env9 (initialState env9)
    "version already in use" rfl rfl

/-- C2 counterexample: with a cached address for `TokenImplementation` that
reconciliation finds dead, the very first event `deployIfNeeded` emits is
the deploy call itself — no flush of the purged ledger precedes the
redeploy (the only flush, coming after the deploy, already carries the new
address), contradicting the claim that the removal is persisted before the
redeploy is attempted. -/
theorem C2_purge_flush_cex :
    jsGet cexSt2.contracts "TokenImplementation" = some "0xDEAD" ∧
    isContractDeployed cexEnv2 (some "0xDEAD") = false ∧
    (deployIfNeeded false cexEnv2 "TokenImplementation" cexSt2).1.head? =
      some (.deployCall "TokenImplementation") ∧
    ((flushes (deployIfNeeded false cexEnv2 "TokenImplementation" cexSt2).1).all
      (fun s => jsGet s.contracts "TokenImplementation" ==
        some "0xTokenImplementation")) = true :=
  ⟨rfl, rfl, rfl, rfl⟩

/-- C2 amended: when `deployIfNeeded` (not in force mode) finds the cached
truthy address dead, it removes the entry from the in-memory ledger before
deploying, but this removal is not flushed: the call behaves exactly like a
fresh deploy on the purged state, its first event is the deploy call, and
the only flush is the post-deploy one that already records the new address.
(The resume-time verification purge in `main` is separate and is flushed
with the step-1 progress update before any deploy.) -/
theorem C2_amended_inmemory_purge (env : Env) (name addr : String)
    (st : DeploymentState)
    (hc : jsGet st.contracts name = some addr) (hne : addr ≠ "")
    (hdead : isContractDeployed env (some addr) = false) :
    deployIfNeeded false env name st =
      doDeploy env name { st with contracts := removeUnit name st.contracts } ∧
    (deployIfNeeded false env name st).1.head? = some (.deployCall name) := by
  have hA : (addr == "") = false := by simpa using hne
  have h1 : deployIfNeeded false env name st =
      doDeploy env name { st with contracts := removeUnit name st.contracts } := by
    unfold deployIfNeeded
    rw [hc]
    simp [hA, hdead]
  refine ⟨h1, ?_⟩
  rw [h1]
  unfold doDeploy
  cases env.deploy name <;> rfl

theorem C2_amended_inmemory_purge_witness :
    deployIfNeeded false cexEnv2 "TokenImplementation" cexSt2 =
      doDeploy cexEnv2 "TokenImplementation"
        { cexSt2 with
          contracts := removeUnit "TokenImplementation" cexSt2.contracts } :=
  (C2_amended_inmemory_purge cexEnv2 "TokenImplementation" "0xDEAD" cexSt2 rfl
    (by decide) rfl).1

/-- C4 counterexample: a run in which `setTREXFactory` fails with a message
containing the known substring "already set" (so the failure is converted
to success and the run proceeds), but the immediately following
`setIAFactory` fails fatally with an unrecognized message: the run aborts
and no flushed ledger state ever carries `trexFactoryConfigured = true`, so
the recovered flag was never flushed — refuting the claim that recovery
sets the flag true *and flushes it*. -/
theorem C4_recovery_flush_cex :
    cexEnv4.invoke "setTREXFactory" = .error "TREXFactory already set" ∧
    strContains "TREXFactory already set" "already set" = true ∧
    (runMain false cexEnv4).2 = .error "boom" ∧
    ((flushes (runMain false cexEnv4).1).all
      (fun s => !s.progress.trexFactoryConfigured)) = true :=
  ⟨rfl, rfl, rfl, rfl⟩

/-- C4 amended: for each of the three configuration actions that carry
"already done" substrings (`addTokenFactory`, `setTREXFactory`,
`setIAFactory` — all steps of the plan), a chain-client failure whose
message contains one of the action's case-sensitive substrings is converted
to success: the flag is set true in memory and the step returns success (no
flush is performed by the recovery itself — the flag reaches durable
storage only with a later progress flush, which a subsequent fatal error
can preempt); a failure whose message contains none of the substrings
propagates fatally with the flag left false. -/
theorem C4_amended_message_classification (f : Flag) (act : String)
    (subs : List String) (hmem : (f, act, subs) ∈ recoverableActions)
    (force : Bool) (env : Env) (st : DeploymentState) (e : String)
    (hflag : flagGet st f = false) (hinv : env.invoke act = .error e) :
    (Step.action f act subs) ∈ thePlan ∧
    ((subs.any (fun sub => strContains e sub)) = true →
        execStep force env st (.action f act subs) =
          ([.invokeCall act], .ok (flagSet f st))) ∧
    ((subs.any (fun sub => strContains e sub)) = false →
        execStep force env st (.action f act subs) =
          ([.invokeCall act], .error e)) := by
  refine ⟨?_, ?_, ?_⟩
  · simp only [recoverableActions, List.mem_cons] at hmem
    rcases hmem with h | h | h | h
    · rw [Prod.ext_iff] at h
      obtain ⟨h1, h2⟩ := h
      rw [Prod.ext_iff] at h2
      obtain ⟨h2, h3⟩ := h2
      subst h1
      subst h2
      subst h3
      decide
    · rw [Prod.ext_iff] at h
      obtain ⟨h1, h2⟩ := h
      rw [Prod.ext_iff] at h2
      obtain ⟨h2, h3⟩ := h2
      subst h1
      subst h2
      subst h3
      decide
    · rw [Prod.ext_iff] at h
      obtain ⟨h1, h2⟩ := h
      rw [Prod.ext_iff] at h2
      obtain ⟨h2, h3⟩ := h2
      subst h1
      subst h2
      subst h3
      decide
    · simp at h
  · intro hm
    simp [execStep, hflag, hinv, hm]
  · intro hm
    simp [execStep, hflag, hinv, hm]

theorem C4_amended_message_classification_witness :
    execStep false envW4a (initialState envW4a)
        (.action .identityFactory "addTokenFactory" ["already a TokenFactory"]) =
      ([.invokeCall "addTokenFactory"],
       .ok (flagSet .identityFactory (initialState envW4a))) ∧
    execStep false envW4b (initialState envW4b)
        (.action .identityFactory "addTokenFactory" ["already a TokenFactory"]) =
      ([.invokeCall "addTokenFactory"], .error "execution reverted") := by
  constructor
  · exact (C4_amended_message_classification .identityFactory "addTokenFactory"
      ["already a TokenFactory"] (by decide) false envW4a (initialState envW4a)
      "factory is already a TokenFactory here" rfl rfl).2.1 (by decide)
  · exact (C4_amended_message_classification .identityFactory "addTokenFactory"
      ["already a TokenFactory"] (by decide) false envW4b (initialState envW4b)
      "execution reverted" rfl rfl).2.2 (by decide)

end TREXDeploy

namespace TREXDeploy

theorem flushSteps_cons_flush (st : DeploymentState) (tr : List Event) :
    flushSteps (.flush st :: tr) = st.progress.step :: flushSteps tr := by
  simp [flushSteps, flushes]

theorem runSteps_cons_setProgress (force : Bool) (env : Env) (sp : Nat) (d : String)
    (rest : List Step) (st : DeploymentState) :
    runSteps force env (.setProgress sp d :: rest) st =
      ((.flush (updProgress env sp d st)) ::
        (runSteps force env rest (updProgress env sp d st)).1,
       (runSteps force env rest (updProgress env sp d st)).2) := by
  rw [runSteps_cons]
  rw [show execStep force env st (Step.setProgress sp d) =
      ([.flush (updProgress env sp d st)], .ok (updProgress env sp d st)) from rfl]
  dsimp only
  cases runSteps force env rest (updProgress env sp d st) with
  | mk a b => rfl

/-- C8 amended: the ledger's `timestamp` field (the spec's createdAt) is
set to the *current* run's start time in every state the run flushes: a
resuming run does not preserve the loaded creation timestamp (the merge
restores `contracts`, `progress` and `deployer` but not `timestamp`), so
the field is overwritten on every run rather than set once. -/
theorem C8_amended_timestamp_overwrite (force : Bool) (env : Env) :
    ∀ x ∈ flushes (runMain force env).1, x.timestamp = env.startTime := by
  have hstep : ∀ s ∈ thePlan, ∀ st0 : DeploymentState, st0.timestamp = env.startTime →
      (∀ e ∈ (execStep force env st0 s).1, True) ∧
      (∀ x ∈ flushes (execStep force env st0 s).1, x.timestamp = env.startTime) ∧
      (∀ st', (execStep force env st0 s).2 = .ok st' → st'.timestamp = env.startTime) := by
    intro s _ st0 h0
    have hts := exec_ts force env s st0
    exact ⟨fun _ _ => trivial,
           fun x hx => (hts.1 x hx).trans h0,
           fun st' h => (hts.2 st' h).trans h0⟩
  have hbody : ∀ st : DeploymentState, st.timestamp = env.startTime →
      ∀ x ∈ flushes (runBody force env st).1, x.timestamp = env.startTime := by
    intro st hst
    exact fun x hx => (runBody_inv force env (fun s => s.timestamp = env.startTime)
      (fun _ => True) hstep
      (fun st0 h0 => by simpa [updProgress] using h0)
      (fun _ => trivial) st hst).2.1 x hx
  intro x hx
  cases force with
  | false =>
      cases hs : env.stored with
      | none =>
          rw [runMain_eq_none env hs, mapOutcome_fst] at hx
          exact hbody (initialState env) rfl x hx
      | some ex =>
          cases hc : ex.completed with
          | false =>
              rw [runMain_eq_resume env ex hs hc, mapOutcome_fst] at hx
              exact hbody (mergedState env ex) rfl x hx
          | true =>
              rw [runMain_eq_completed env ex hs hc] at hx
              simp [flushes] at hx
  | true =>
      rw [runMain_eq_force, mapOutcome_fst] at hx
      exact hbody (forceInitState env) rfl x hx

theorem C8_amended_timestamp_overwrite_witness :
    updProgress cexEnv8 10 "Starting implementation contracts deployment"
        (mergedState cexEnv8 cexStored8) ∈ flushes (runMain false cexEnv8).1 ∧
    (updProgress cexEnv8 10 "Starting implementation contracts deployment"
        (mergedState cexEnv8 cexStored8)).timestamp = cexEnv8.startTime :=
  ⟨by decide, C8_amended_timestamp_overwrite false cexEnv8 _ (by decide)⟩

/-- C8 counterexample: a ledger created at time 111 is resumed by a run
starting at time 222 (no force mode, nothing dead, every step succeeding);
the very first state the resuming run flushes already carries timestamp
222, not the loaded 111 — the load does overwrite the creation timestamp. -/
theorem C8_created_timestamp_cex :
    cexEnv8.stored = some cexStored8 ∧
    cexStored8.completed = false ∧
    cexStored8.timestamp = 111 ∧
    cexEnv8.startTime = 222 ∧
    ((flushes (runMain false cexEnv8).1).map (fun s => s.timestamp)).head? =
      some 222 ∧
    (111 : Nat) ≠ 222 :=
  ⟨rfl, rfl, rfl, rfl, rfl, by decide⟩

/-- C3 counterexample: the previous run of this ledger was interrupted
after flushing progress step 5 (scaled: 50); the resuming run (force mode
off) immediately flushes progress step 1 (scaled: 10) as its first write —
the persisted `progress.stepId` regresses from 50 to 10 across the
lifetime of the ledger without any force reset. -/
theorem C3_step_regression_cex :
    cexEnv3.stored = some cexStored3 ∧
    cexStored3.completed = false ∧
    cexStored3.progress.step = 50 ∧
    (flushSteps (runMain false cexEnv3).1).head? = some 10 ∧
    (10 : Nat) < 50 :=
  ⟨rfl, rfl, rfl, rfl, by decide⟩

/-- C3 amended: within one run, the sequence of `progress.step` values in
the flushed states is non-decreasing (the plan's step numbers are visited
in increasing order and the post-deploy flush reuses the current number);
across runs there is no such guarantee: a resuming run restarts the plan at
step 0/1 and thereby regresses the persisted step id below the loaded
value, except that a force reset clears progress together with units and
flags. -/
theorem C3_amended_withinrun_monotone (force : Bool) (env : Env) :
    List.Chain' (· ≤ ·) (flushSteps (runMain force env).1) := by
  have hbody : ∀ st : DeploymentState,
      List.Chain' (· ≤ ·) (flushSteps (runBody force env st).1) := by
    intro st
    rw [runBody_eq]
    cases htr : truthy st.deployer with
    | false =>
        simp only [Bool.false_eq_true, if_false]
        cases hgb : env.getBalance with
        | error e =>
            dsimp only
            rw [flushSteps_cons_flush]
            simp [flushSteps, flushes]
        | ok w =>
            dsimp only
            rw [flushSteps_cons_flush]
            have h0 : (updProgress env 0 "Initialized deployer"
                { st with deployer := some env.account0 }).progress.step = 0 := rfl
            exact runSteps_chain force env thePlan
              (updProgress env 0 "Initialized deployer"
                { st with deployer := some env.account0 })
              (by rw [h0]; decide)
    | true =>
        simp only [if_true]
        cases hgb : env.getBalance with
        | error e => simp [flushSteps, flushes]
        | ok w =>
            rw [show thePlan = Step.setProgress 10
                "Starting implementation contracts deployment" :: planTail from rfl]
            rw [runSteps_cons_setProgress]
            dsimp only
            rw [flushSteps_cons_flush]
            exact runSteps_chain force env planTail
              (updProgress env 10 "Starting implementation contracts deployment" st)
              (by rw [show (updProgress env 10
                  "Starting implementation contracts deployment" st).progress.step = 10
                  from rfl]
                  decide)
  cases force with
  | false =>
      cases hs : env.stored with
      | none =>
          rw [runMain_eq_none env hs, mapOutcome_fst]
          exact hbody (initialState env)
      | some ex =>
          cases hc : ex.completed with
          | false =>
              rw [runMain_eq_resume env ex hs hc, mapOutcome_fst]
              exact hbody (mergedState env ex)
          | true =>
              rw [runMain_eq_completed env ex hs hc]
              simp [flushSteps, flushes]
  | true =>
      rw [runMain_eq_force, mapOutcome_fst]
      exact hbody (forceInitState env)

/-- C1: for a unit `U` cached in the loaded ledger at address `A` that the
chain client reports live, a non-force run performs no deploy call for `U`,
every state it flushes still maps `U` to `A` (no ledger write for `U`), and
`deployIfNeeded` itself returns the attached handle at the cached address
`A` with the state unchanged and no events. -/
theorem C1_idempotent_skip (env : Env) (ex : DeploymentState) (U A : String)
    (hstored : env.stored = some ex)
    (hcached : jsGet ex.contracts U = some A)
    (hlive : isContractDeployed env (some A) = true) :
    (∀ e ∈ (runMain false env).1, e ≠ .deployCall U) ∧
    (∀ x ∈ flushes (runMain false env).1, jsGet x.contracts U = some A) ∧
    (∀ st, jsGet st.contracts U = some A →
        deployIfNeeded false env U st = ([], .ok (A, st))) := by
  have hthird : ∀ st : DeploymentState, jsGet st.contracts U = some A →
      deployIfNeeded false env U st = ([], .ok (A, st)) :=
    fun st h => dif_skip env U A st h hlive
  cases hc : ex.completed with
  | true =>
      rw [runMain_eq_completed env ex hstored hc]
      exact ⟨by simp, by simp [flushes], hthird⟩
  | false =>
      rw [runMain_eq_resume env ex hstored hc, mapOutcome_fst]
      have hmerged : jsGet (mergedState env ex).contracts U = some A := by
        show jsGet (ex.contracts.filter
          fun p => isContractDeployed env (some p.2)) U = some A
        exact jsGet_filter_of _ U A hlive ex.contracts hcached
      have hrb := runBody_inv false env
        (fun st => jsGet st.contracts U = some A)
        (fun e => e ≠ .deployCall U)
        (fun s _ st0 h0 => exec_keepUnit env U A hlive s st0 h0)
        (fun st0 h0 => by simpa [updProgress] using h0)
        (fun x => by simp)
        (mergedState env ex) hmerged
      exact ⟨hrb.1, hrb.2.1, hthird⟩

theorem C1_idempotent_skip_witness :
    (Event.deployCall "TokenImplementation") ∉ (runMain false envW1).1 ∧
    deployIfNeeded false envW1 "TokenImplementation" exW1 =
      ([], .ok ("0xCAFE", exW1)) := by
  have h := C1_idempotent_skip envW1 exW1 "TokenImplementation" "0xCAFE" rfl rfl rfl
  exact ⟨fun hm => h.1 _ hm rfl, h.2.2 exW1 rfl⟩

end TREXDeploy

namespace TREXDeploy

/-- The completion block at the end of the plan: `updateProgress(8, ...)`
flushes a still-uncompleted state, then `completed`/`completedAt` are set,
the final state flushed, and exactly one timestamped backup written. -/
theorem runSteps_completion (force : Bool) (env : Env) (st1 : DeploymentState)
    (hc : st1.completed = false) :
    (∀ x ∈ flushes (runSteps force env thePlan st1).1, x.completed = true →
        (runSteps force env thePlan st1).2 = .ok x ∧
        x.completedAt = some env.doneTime ∧
        .backup x ∈ (runSteps force env thePlan st1).1) ∧
    ((runSteps force env thePlan st1).1.countP isBackup =
      match (runSteps force env thePlan st1).2 with
      | .ok _ => 1
      | .error _ => 0) ∧
    (∀ stF, (runSteps force env thePlan st1).2 = .ok stF →
        stF.completed = true ∧ stF.completedAt = some env.doneTime ∧
        .flush stF ∈ (runSteps force env thePlan st1).1 ∧
        .backup stF ∈ (runSteps force env thePlan st1).1) := by
  have hnf : ∀ s ∈ planBody, s ≠ Step.finish := by decide
  have hbodyinv := runSteps_inv force env (fun st => st.completed = false)
    (fun e => isBackup e = false) planBody
    (fun s hs st0 h0 => exec_nonfinish force env s st0 (hnf s hs) |>.imp
      (fun h1 => h1) (fun h2 => ⟨fun x hx => (h2.1 x hx).trans h0,
        fun st' h => (h2.2 st' h).trans h0⟩))
    st1 hc
  rw [show thePlan = planBody ++ [Step.finish] from rfl, runSteps_append]
  cases hB : runSteps force env planBody st1 with
  | mk evB rB =>
    rw [hB] at hbodyinv
    cases rB with
    | error e =>
        dsimp only
        refine ⟨?_, ?_, ?_⟩
        · intro x hx hxc
          exact absurd ((hbodyinv.2.1 x hx).symm.trans hxc) (by simp)
        · rw [List.countP_eq_zero.mpr]
          intro e2 he2
          simp [hbodyinv.1 e2 he2]
        · intro stF h
          simp at h
    | ok stB =>
        have hcB : stB.completed = false := hbodyinv.2.2 stB rfl
        dsimp only
        have hfin : runSteps force env [Step.finish] stB =
            ([.flush (updProgress env 80 "Deployment completed successfully!" stB),
              .flush { updProgress env 80 "Deployment completed successfully!" stB with
                       completed := true, completedAt := some env.doneTime },
              .backup { updProgress env 80 "Deployment completed successfully!" stB with
                        completed := true, completedAt := some env.doneTime }],
             .ok { updProgress env 80 "Deployment completed successfully!" stB with
                   completed := true, completedAt := some env.doneTime }) := rfl
        rw [hfin]
        dsimp only
        refine ⟨?_, ?_, ?_⟩
        · intro x hx hxc
          rw [flushes_append] at hx
          rcases List.mem_append.mp hx with hx | hx
          · exact absurd ((hbodyinv.2.1 x hx).symm.trans hxc) (by simp)
          · simp [flushes] at hx
            rcases hx with hx | hx
            · subst hx
              rw [show (updProgress env 80 "Deployment completed successfully!"
                  stB).completed = stB.completed from rfl, hcB] at hxc
              simp at hxc
            · subst hx
              refine ⟨rfl, rfl, ?_⟩
              exact List.mem_append_right _ (by simp)
        · rw [List.countP_append, List.countP_eq_zero.mpr]
          · rfl
          · intro e2 he2
            simp [hbodyinv.1 e2 he2]
        · intro stF h
          simp only [Except.ok.injEq] at h
          subst h
          refine ⟨rfl, rfl, ?_, ?_⟩
          · exact List.mem_append_right _ (by simp)
          · exact List.mem_append_right _ (by simp)

theorem runBody_completion (force : Bool) (env : Env) (st : DeploymentState)
    (hc : st.completed = false) :
    (∀ x ∈ flushes (runBody force env st).1, x.completed = true →
        (runBody force env st).2 = .ok x ∧ x.completedAt = some env.doneTime ∧
        .backup x ∈ (runBody force env st).1) ∧
    ((runBody force env st).1.countP isBackup =
      match (runBody force env st).2 with
      | .ok _ => 1
      | .error _ => 0) ∧
    (∀ stF, (runBody force env st).2 = .ok stF →
        stF.completed = true ∧ stF.completedAt = some env.doneTime ∧
        .flush stF ∈ (runBody force env st).1 ∧
        .backup stF ∈ (runBody force env st).1) := by
  rw [runBody_eq]
  cases htr : truthy st.deployer with
  | true =>
      simp only [if_true]
      cases hgb : env.getBalance with
      | error e =>
          refine ⟨?_, ?_, ?_⟩
          · intro x hx
            simp [flushes] at hx
          · rfl
          · intro stF h
            simp at h
      | ok w => exact runSteps_completion force env st hc
  | false =>
      simp only [Bool.false_eq_true, if_false]
      have hc1 : (updProgress env 0 "Initialized deployer"
          { st with deployer := some env.account0 }).completed = false := by
        rw [show (updProgress env 0 "Initialized deployer"
            { st with deployer := some env.account0 }).completed =
          st.completed from rfl]
        exact hc
      cases hgb : env.getBalance with
      | error e =>
          dsimp only
          refine ⟨?_, ?_, ?_⟩
          · intro x hx hxc
            simp [flushes] at hx
            subst hx
            exact absurd (hc1.symm.trans hxc) (by simp)
          · rfl
          · intro stF h
            simp at h
      | ok w =>
          dsimp only
          have hmain := runSteps_completion force env
            (updProgress env 0 "Initialized deployer"
              { st with deployer := some env.account0 }) hc1
          refine ⟨?_, ?_, ?_⟩
          · intro x hx hxc
            rw [show flushes (Event.flush (updProgress env 0 "Initialized deployer"
                { st with deployer := some env.account0 }) ::
                (runSteps force env thePlan (updProgress env 0 "Initialized deployer"
                  { st with deployer := some env.account0 })).1) =
              updProgress env 0 "Initialized deployer"
                { st with deployer := some env.account0 } ::
              flushes ((runSteps force env thePlan
                (updProgress env 0 "Initialized deployer"
                  { st with deployer := some env.account0 })).1) by
              simp [flushes]] at hx
            rcases List.mem_cons.mp hx with hx | hx
            · subst hx
              exact absurd (hc1.symm.trans hxc) (by simp)
            · have := hmain.1 x hx hxc
              exact ⟨this.1, this.2.1, List.mem_cons_of_mem _ this.2.2⟩
          · rw [show (Event.flush (updProgress env 0 "Initialized deployer"
                { st with deployer := some env.account0 }) ::
                (runSteps force env thePlan (updProgress env 0 "Initialized deployer"
                  { st with deployer := some env.account0 })).1).countP isBackup =
              ((runSteps force env thePlan (updProgress env 0 "Initialized deployer"
                  { st with deployer := some env.account0 })).1).countP isBackup by
              simp [List.countP_cons, isBackup]]
            exact hmain.2.1
          · intro stF h
            have := hmain.2.2 stF h
            exact ⟨this.1, this.2.1, List.mem_cons_of_mem _ this.2.2.1,
                   List.mem_cons_of_mem _ this.2.2.2⟩

/-- C7: the ledger's `completed` field is set true, with `completedAt` set
alongside, only at successful completion: any flushed state carrying
`completed = true` is the final state of a successful run, that final
state is flushed, and exactly one timestamped archival backup of it is
written — aborted runs and the already-completed early exit write none. -/
theorem C7_completion_semantics (force : Bool) (env : Env) :
    (∀ x ∈ flushes (runMain force env).1, x.completed = true →
        (runMain force env).2 = .ok (some x) ∧
        x.completedAt = some env.doneTime ∧
        .backup x ∈ (runMain force env).1) ∧
    ((runMain force env).1.countP isBackup =
      match (runMain force env).2 with
      | .ok (some _) => 1
      | _ => 0) ∧
    (∀ stF, (runMain force env).2 = .ok (some stF) →
        stF.completed = true ∧ stF.completedAt = some env.doneTime ∧
        .flush stF ∈ (runMain force env).1 ∧
        .backup stF ∈ (runMain force env).1) := by
  have hwrap : ∀ (st0 : DeploymentState), st0.completed = false →
      ∀ p, p = runBody force env st0 →
      (∀ x ∈ flushes (mapOutcome p).1, x.completed = true →
          (mapOutcome p).2 = .ok (some x) ∧
          x.completedAt = some env.doneTime ∧
          .backup x ∈ (mapOutcome p).1) ∧
      ((mapOutcome p).1.countP isBackup =
        match (mapOutcome p).2 with
        | .ok (some _) => 1
        | _ => 0) ∧
      (∀ stF, (mapOutcome p).2 = .ok (some stF) →
          stF.completed = true ∧ stF.completedAt = some env.doneTime ∧
          .flush stF ∈ (mapOutcome p).1 ∧ .backup stF ∈ (mapOutcome p).1) := by
    intro st0 h0 p hp
    have hbase := runBody_completion force env st0 h0
    rw [← hp] at hbase
    refine ⟨?_, ?_, ?_⟩
    · intro x hx hxc
      have := hbase.1 x (by rwa [mapOutcome_fst] at hx) hxc
      refine ⟨?_, this.2.1, by rw [mapOutcome_fst]; exact this.2.2⟩
      rw [show (mapOutcome p).2 = .ok (some x) ↔ p.2 = .ok x from mapOutcome_ok p x]
      exact this.1
    · rw [mapOutcome_fst]
      cases h2 : p.2 with
      | error e =>
          rw [hbase.2.1, h2]
          simp [mapOutcome, h2]
      | ok stB =>
          rw [hbase.2.1, h2]
          simp [mapOutcome, h2]
    · intro stF h
      have hF := hbase.2.2 stF ((mapOutcome_ok p stF).mp h)
      exact ⟨hF.1, hF.2.1, by rw [mapOutcome_fst]; exact hF.2.2.1,
             by rw [mapOutcome_fst]; exact hF.2.2.2⟩
  cases force with
  | false =>
      cases hs : env.stored with
      | none =>
          rw [runMain_eq_none env hs]
          exact hwrap (initialState env) rfl _ rfl
      | some ex =>
          cases hcex : ex.completed with
          | false =>
              rw [runMain_eq_resume env ex hs hcex]
              exact hwrap (mergedState env ex) rfl _ rfl
          | true =>
              rw [runMain_eq_completed env ex hs hcex]
              refine ⟨?_, ?_, ?_⟩
              · intro x hx
                simp [flushes] at hx
              · rfl
              · intro stF h
                simp at h
  | true =>
      rw [runMain_eq_force]
      exact hwrap (forceInitState env) rfl _ rfl

theorem C7_completion_semantics_witness :
    (runMain false envW).1.countP isBackup = 1 :=
  ((C7_completion_semantics false envW).2.1).trans (by decide)

end TREXDeploy

namespace TREXDeploy

/-- A single step never inspects the stored ledger: its behaviour is
unchanged when the `stored` field of the environment is replaced. -/
theorem execStep_stored_irrel (force : Bool) (s0 : Option DeploymentState)
    (env : Env) (st : DeploymentState) (s : Step) :
    execStep force { env with stored := s0 } st s = execStep force env st s := by
  cases s <;> rfl

theorem runSteps_stored_irrel (force : Bool) (s0 : Option DeploymentState) (env : Env) :
    ∀ (plan : List Step) (st : DeploymentState),
      runSteps force { env with stored := s0 } plan st = runSteps force env plan st
  | [], st => rfl
  | s :: rest, st => by
      rw [runSteps_cons, runSteps_cons, execStep_stored_irrel]
      cases hE : execStep force env st s with
      | mk ev r =>
        cases r with
        | error e => rfl
        | ok st1 =>
            dsimp only
            rw [runSteps_stored_irrel force s0 env rest st1]

theorem runBody_stored_irrel (force : Bool) (s0 : Option DeploymentState)
    (env : Env) (st : DeploymentState) :
    runBody force { env with stored := s0 } st = runBody force env st := by
  rw [runBody_eq, runBody_eq]
  rw [show ({ env with stored := s0 } : Env).getBalance = env.getBalance from rfl]
  rw [show updProgress { env with stored := s0 } 0 "Initialized deployer"
      { st with deployer := some ({ env with stored := s0 } : Env).account0 } =
      updProgress env 0 "Initialized deployer"
        { st with deployer := some env.account0 } from rfl]
  simp only [runSteps_stored_irrel]

/-- C6: a force-mode run (a) never reads the existing ledger — its whole
behaviour is unchanged under any replacement of the stored record; (b)
starts from a state with no unit addresses, no guard flags, `completed`
unset and `completedAt` unset, all cleared together (the first flushed
state exhibits exactly this); and (c) when it completes successfully it
has re-executed every plan step: all twelve constructor deployments and
all four configuration invocations appear in the trace. -/
theorem C6_force_reset (env : Env) (s0 : Option DeploymentState) :
    (runMain true { env with stored := s0 } = runMain true env) ∧
    (∃ s rest, (runMain true env).1 = .flush s :: rest ∧
        s.contracts = [] ∧ s.completed = false ∧ s.completedAt = none ∧
        ∀ fl : Flag, flagGet s fl = false) ∧
    (isOkSome (runMain true env).2 = true →
        ∀ e ∈ thePlan.filterMap mustEvent, e ∈ (runMain true env).1) := by
  refine ⟨?_, ?_, ?_⟩
  · rw [runMain_eq_force, runMain_eq_force]
    rw [show forceInitState { env with stored := s0 } = forceInitState env from rfl]
    rw [runBody_stored_irrel]
  · rw [runMain_eq_force, mapOutcome_fst, runBody_eq]
    rw [show truthy (forceInitState env).deployer = false from rfl]
    simp only [Bool.false_eq_true, if_false]
    refine ⟨updProgress env 0 "Initialized deployer"
      { forceInitState env with deployer := some env.account0 }, _, rfl,
      rfl, rfl, rfl, ?_⟩
    intro fl
    cases fl <;> rfl
  · intro hok e he
    rw [runMain_eq_force, mapOutcome_fst, runBody_eq]
    rw [runMain_eq_force] at hok
    rw [show truthy (forceInitState env).deployer = false from rfl]
    rw [runBody_eq, show truthy (forceInitState env).deployer = false from rfl] at hok
    simp only [Bool.false_eq_true, if_false] at hok ⊢
    cases hgb : env.getBalance with
    | error e2 =>
        rw [hgb] at hok
        simp [mapOutcome, isOkSome] at hok
    | ok w =>
        rw [hgb] at hok
        dsimp only at hok ⊢
        cases hrs : runSteps true env thePlan
            (updProgress env 0 "Initialized deployer"
              { forceInitState env with deployer := some env.account0 }) with
        | mk tr2 r2 =>
          rw [hrs] at hok
          cases r2 with
          | error e3 => simp [mapOutcome, isOkSome] at hok
          | ok stF =>
              refine List.mem_cons_of_mem _ ?_
              refine force_events env thePlan
                (updProgress env 0 "Initialized deployer"
                  { forceInitState env with deployer := some env.account0 })
                tr2 stF hrs ?_ (by decide) e he
              intro fl _
              cases fl <;> rfl

theorem C6_force_reset_witness :
    (Event.invokeCall "setIAFactory") ∈ (runMain true envW).1 :=
  (C6_force_reset envW none).2.2 (by decide) (Event.invokeCall "setIAFactory")
    (by decide)

end TREXDeploy
